import Mathlib

/-!
Verification of the Orbital-Mind n-body simulator core.

The TypeScript source operates on IEEE-754 double precision numbers.  We model
a JavaScript number by the type `JsNum`: an exact real number, or one of the
special values Infinity, -Infinity, NaN.  The special values follow the IEEE
rules (NaN absorbs every operation, Infinity - Infinity = NaN, 0 * Infinity =
NaN, finite / 0 = signed Infinity, 0 / 0 = NaN, Math.sqrt of a negative number
is NaN, every comparison against NaN is false, Math.max / Math.min propagate
NaN).  The base operations (add, mul, ...) keep finite arithmetic exact (no
rounding, no signed zero -0); on top of them an overflow-aware layer (addOv,
mulOv, ..., below) maps every finite result whose magnitude reaches the
IEEE-754 round-to-Infinity threshold (2 - 2^-53) * 2^1023 = 2^1024 - 2^970 to
the corresponding Infinity, exactly as rounding double arithmetic does, while
results below the threshold stay exact.  The divergence-containment claim is
settled against the overflow-aware embedding of the engine; the remaining
claims do not depend on overflow and use the exact embedding.

The physics engine (physicsEngine.ts), the reconciliation effect and the
gesture handlers of Canvas.tsx, the body property editors of Controls.tsx and
the constants of constants.ts are embedded below, each definition following
its source function line by line.
-/

/-- Model of a JavaScript (IEEE-754 double) number: a finite exact real, one of
the two infinities, or NaN.  The signed zero and overflow are not modelled. -/
inductive JsNum where
  | fin (x : ℝ)
  | inf
  | ninf
  | nan

instance : Inhabited JsNum := ⟨JsNum.nan⟩

namespace JsNum

noncomputable section

/-- Unary minus on JS numbers. -/
def neg : JsNum → JsNum
  | fin x => fin (-x)
  | inf => ninf
  | ninf => inf
  | nan => nan

/-- JS addition. -/
def add : JsNum → JsNum → JsNum
  | fin x, fin y => fin (x + y)
  | fin _, inf => inf
  | fin _, ninf => ninf
  | inf, fin _ => inf
  | ninf, fin _ => ninf
  | inf, inf => inf
  | ninf, ninf => ninf
  | inf, ninf => nan
  | ninf, inf => nan
  | nan, _ => nan
  | _, nan => nan

/-- JS subtraction, additive inverse composed with addition (coincides with
IEEE subtraction in the absence of signed zeros). -/
def sub (a b : JsNum) : JsNum := add a (neg b)

/-- JS multiplication. -/
def mul : JsNum → JsNum → JsNum
  | fin x, fin y => fin (x * y)
  | fin x, inf => if x > 0 then inf else if x < 0 then ninf else nan
  | fin x, ninf => if x > 0 then ninf else if x < 0 then inf else nan
  | inf, fin y => if y > 0 then inf else if y < 0 then ninf else nan
  | ninf, fin y => if y > 0 then ninf else if y < 0 then inf else nan
  | inf, inf => inf
  | ninf, ninf => inf
  | inf, ninf => ninf
  | ninf, inf => ninf
  | nan, _ => nan
  | _, nan => nan

/-- JS division (with an unsigned zero, so finite / 0 follows the sign of the
numerator alone, and 0 / 0 = NaN). -/
def div : JsNum → JsNum → JsNum
  | fin x, fin y =>
      if y = 0 then (if x > 0 then inf else if x < 0 then ninf else nan)
      else fin (x / y)
  | fin _, inf => fin 0
  | fin _, ninf => fin 0
  | inf, fin y => if y < 0 then ninf else inf
  | ninf, fin y => if y < 0 then inf else ninf
  | inf, inf => nan
  | inf, ninf => nan
  | ninf, inf => nan
  | ninf, ninf => nan
  | nan, _ => nan
  | _, nan => nan

/-- Math.sqrt. -/
def sqrt : JsNum → JsNum
  | fin x => if x < 0 then nan else fin (Real.sqrt x)
  | inf => inf
  | ninf => nan
  | nan => nan

/-- The strict comparison a < b of JS (false whenever an operand is NaN). -/
def ltb : JsNum → JsNum → Bool
  | fin x, fin y => decide (x < y)
  | fin _, inf => true
  | ninf, fin _ => true
  | ninf, inf => true
  | _, _ => false

/-- Math.max (NaN wins over everything). -/
def maxJ : JsNum → JsNum → JsNum
  | fin x, fin y => fin (max x y)
  | fin _, inf => inf
  | inf, fin _ => inf
  | fin x, ninf => fin x
  | ninf, fin y => fin y
  | inf, inf => inf
  | ninf, ninf => ninf
  | inf, ninf => inf
  | ninf, inf => inf
  | nan, _ => nan
  | _, nan => nan

/-- Math.min (NaN wins over everything). -/
def minJ : JsNum → JsNum → JsNum
  | fin x, fin y => fin (min x y)
  | fin x, inf => fin x
  | inf, fin y => fin y
  | fin _, ninf => ninf
  | ninf, fin _ => ninf
  | inf, inf => inf
  | ninf, ninf => ninf
  | inf, ninf => ninf
  | ninf, inf => ninf
  | nan, _ => nan
  | _, nan => nan

/-- The isNaN predicate of JS. -/
def isNaNb : JsNum → Bool
  | nan => true
  | _ => false

/-- Number.isFinite: true exactly on the finite values. -/
def isFiniteb : JsNum → Bool
  | fin _ => true
  | _ => false

/-- JS truthiness of a number (0 and NaN are falsy; -0 is not modelled). -/
def truthy : JsNum → Bool
  | fin x => decide (x ≠ 0)
  | nan => false
  | _ => true

end

@[simp] theorem add_fin_fin (x y : ℝ) : add (fin x) (fin y) = fin (x + y) := rfl
@[simp] theorem neg_fin (x : ℝ) : neg (fin x) = fin (-x) := rfl
@[simp] theorem sub_fin_fin (x y : ℝ) : sub (fin x) (fin y) = fin (x + -y) := rfl
@[simp] theorem mul_fin_fin (x y : ℝ) : mul (fin x) (fin y) = fin (x * y) := rfl
@[simp] theorem isNaNb_fin (x : ℝ) : isNaNb (fin x) = false := rfl
@[simp] theorem isNaNb_nan : isNaNb nan = true := rfl
@[simp] theorem isNaNb_inf : isNaNb inf = false := rfl
@[simp] theorem isNaNb_ninf : isNaNb ninf = false := rfl
@[simp] theorem isFiniteb_fin (x : ℝ) : isFiniteb (fin x) = true := rfl
@[simp] theorem isFiniteb_nan : isFiniteb nan = false := rfl
@[simp] theorem isFiniteb_inf : isFiniteb inf = false := rfl
@[simp] theorem isFiniteb_ninf : isFiniteb ninf = false := rfl
@[simp] theorem maxJ_fin_fin (x y : ℝ) : maxJ (fin x) (fin y) = fin (max x y) := rfl
@[simp] theorem minJ_fin_fin (x y : ℝ) : minJ (fin x) (fin y) = fin (min x y) := rfl
@[simp] theorem ltb_fin_fin (x y : ℝ) : ltb (fin x) (fin y) = decide (x < y) := rfl

theorem div_fin_fin_of_ne (x y : ℝ) (hy : y ≠ 0) :
    div (fin x) (fin y) = fin (x / y) := by
  simp [div, hy]

theorem sqrt_fin_of_nonneg (x : ℝ) (hx : 0 ≤ x) :
    sqrt (fin x) = fin (Real.sqrt x) := by
  simp [sqrt, not_lt.mpr hx]

@[simp] theorem add_nan_left (a : JsNum) : add nan a = nan := by cases a <;> rfl
@[simp] theorem add_nan_right (a : JsNum) : add a nan = nan := by cases a <;> rfl
@[simp] theorem mul_nan_left (a : JsNum) : mul nan a = nan := by cases a <;> rfl
@[simp] theorem mul_nan_right (a : JsNum) : mul a nan = nan := by cases a <;> rfl
@[simp] theorem div_nan_left (a : JsNum) : div nan a = nan := by cases a <;> rfl
@[simp] theorem div_nan_right (a : JsNum) : div a nan = nan := by cases a <;> rfl

/-- Adding a literal zero on the right is the identity, for every JS number
(this uses the absence of signed zeros in the model). -/
@[simp] theorem add_zero_right (a : JsNum) : add a (fin 0) = a := by
  cases a <;> simp [add]

theorem isNaNb_eq_false_iff (a : JsNum) : isNaNb a = false ↔ a ≠ nan := by
  cases a <;> simp [isNaNb]

end JsNum

/-- Model of the Vector2 record of types.ts. -/
structure Vec2 where
  x : JsNum
  y : JsNum

instance : Inhabited Vec2 := ⟨⟨JsNum.nan, JsNum.nan⟩⟩

/-- Model of the Body record of types.ts. -/
structure Body where
  id : String
  mass : JsNum
  density : JsNum
  pos : Vec2
  vel : Vec2
  radius : JsNum
  color : String
  trail : List Vec2
  isFixed : Bool

instance : Inhabited Body :=
  ⟨⟨"", JsNum.nan, JsNum.nan, default, default, JsNum.nan, "", [], false⟩⟩

/-- Model of the SimulationConfig record of types.ts.  trailLength is a
nonnegative integer in the model (the UI supplies integers from 0 to 2000). -/
structure SimulationConfig where
  G : JsNum
  timeScale : JsNum
  trailLength : Nat
  trailFade : Bool
  collisionEnabled : Bool
  softening : JsNum
  showTrails : Bool
  showGrid : Bool
  waveAmplitude : JsNum
  waveFrequency : JsNum

noncomputable section

/-- createBody of physicsEngine.ts.  The randomly generated id is passed in as
a parameter. -/
def createBody (id : String) (pos vel : Vec2) (mass : JsNum) (color : String)
    (isFixed : Bool) (density : JsNum) : Body :=
  { id := id
    mass := mass
    density := density
    pos := pos
    vel := vel
    radius := JsNum.maxJ (JsNum.fin 3) (JsNum.sqrt (JsNum.div mass density))
    color := color
    trail := []
    isFixed := isFixed }

/-- The body at index i of the list (bodies[i] of the source; out-of-range
access never happens at the call sites below). -/
def bAt (bodies : List Body) (i : Nat) : Body := bodies.getD i default

/-- The index pairs (i, j) with i < j < n, in the visit order of the nested
loops for i in [0, n), for j in (i, n) of updatePhysics. -/
def pairIdx (n : Nat) : List (Nat × Nat) :=
  (List.range n).flatMap fun i => ((List.range n).filter fun j => i < j).map fun j => (i, j)

/-- dx = b2.pos.x - b1.pos.x for the pair p = (i, j), b1 = bodies[i],
b2 = bodies[j]. -/
def pairDX (bodies : List Body) (p : Nat × Nat) : JsNum :=
  JsNum.sub (bAt bodies p.2).pos.x (bAt bodies p.1).pos.x

/-- dy = b2.pos.y - b1.pos.y. -/
def pairDY (bodies : List Body) (p : Nat × Nat) : JsNum :=
  JsNum.sub (bAt bodies p.2).pos.y (bAt bodies p.1).pos.y

/-- distSq = dx * dx + dy * dy. -/
def pairDistSq (bodies : List Body) (p : Nat × Nat) : JsNum :=
  JsNum.add (JsNum.mul (pairDX bodies p) (pairDX bodies p))
    (JsNum.mul (pairDY bodies p) (pairDY bodies p))

/-- dist = Math.sqrt(distSq). -/
def pairDist (bodies : List Body) (p : Nat × Nat) : JsNum :=
  JsNum.sqrt (pairDistSq bodies p)

/-- The softened force magnitude f = (config.G * b1.mass * b2.mass) /
(distSq + config.softening * config.softening). -/
def pairF (bodies : List Body) (cfg : SimulationConfig) (p : Nat × Nat) : JsNum :=
  JsNum.div (JsNum.mul (JsNum.mul cfg.G (bAt bodies p.1).mass) (bAt bodies p.2).mass)
    (JsNum.add (pairDistSq bodies p) (JsNum.mul cfg.softening cfg.softening))

/-- fx = f * (dx / dist). -/
def pairFX (bodies : List Body) (cfg : SimulationConfig) (p : Nat × Nat) : JsNum :=
  JsNum.mul (pairF bodies cfg p) (JsNum.div (pairDX bodies p) (pairDist bodies p))

/-- fy = f * (dy / dist). -/
def pairFY (bodies : List Body) (cfg : SimulationConfig) (p : Nat × Nat) : JsNum :=
  JsNum.mul (pairF bodies cfg p) (JsNum.div (pairDY bodies p) (pairDist bodies p))

/-- One iteration of the inner force loop of updatePhysics: skip the pair when
dist < 1.0, otherwise add (fx, fy) to the accumulator of body i and subtract it
from the accumulator of body j.  The accumulator array is modelled as a
function from indices to vectors. -/
def accumStep (bodies : List Body) (cfg : SimulationConfig) (F : Nat → Vec2)
    (p : Nat × Nat) : Nat → Vec2 :=
  if JsNum.ltb (pairDist bodies p) (JsNum.fin 1) then F
  else fun k =>
    if k = p.1 then
      ⟨JsNum.add (F k).x (pairFX bodies cfg p), JsNum.add (F k).y (pairFY bodies cfg p)⟩
    else if k = p.2 then
      ⟨JsNum.sub (F k).x (pairFX bodies cfg p), JsNum.sub (F k).y (pairFY bodies cfg p)⟩
    else F k

/-- The zero-initialised force accumulation over every pair (the two nested
loops of updatePhysics, lines 37-63 of physicsEngine.ts). -/
def computeForces (bodies : List Body) (cfg : SimulationConfig) : Nat → Vec2 :=
  (pairIdx bodies.length).foldl (accumStep bodies cfg) fun _ => ⟨JsNum.fin 0, JsNum.fin 0⟩

/-- newVel of updatePhysics: vel + (F / mass) * dt * timeScale, one component
at a time. -/
def newVelOf (cfg : SimulationConfig) (dt : JsNum) (F : Vec2) (b : Body) : Vec2 :=
  ⟨JsNum.add b.vel.x (JsNum.mul (JsNum.mul (JsNum.div F.x b.mass) dt) cfg.timeScale),
   JsNum.add b.vel.y (JsNum.mul (JsNum.mul (JsNum.div F.y b.mass) dt) cfg.timeScale)⟩

/-- newPos of updatePhysics: pos + newVel * dt * timeScale, computed from the
already updated velocity. -/
def newPosOf (cfg : SimulationConfig) (dt : JsNum) (F : Vec2) (b : Body) : Vec2 :=
  ⟨JsNum.add b.pos.x (JsNum.mul (JsNum.mul (newVelOf cfg dt F b).x dt) cfg.timeScale),
   JsNum.add b.pos.y (JsNum.mul (JsNum.mul (newVelOf cfg dt F b).y dt) cfg.timeScale)⟩

/-- The safety check of updatePhysics, line 83: true when some component of
newPos or newVel is NaN. -/
def nanGuard (cfg : SimulationConfig) (dt : JsNum) (F : Vec2) (b : Body) : Bool :=
  JsNum.isNaNb (newPosOf cfg dt F b).x || JsNum.isNaNb (newPosOf cfg dt F b).y ||
    JsNum.isNaNb (newVelOf cfg dt F b).x || JsNum.isNaNb (newVelOf cfg dt F b).y

/-- The trail update of updatePhysics, lines 87-102: measure the squared
distance of newPos from the last recorded point (999 when the trail is empty),
append newPos when it exceeds 10, and after an append keep only the last
trailLength points (newTrail.slice(newTrail.length - trailLength)). -/
def trailStep (trailLength : Nat) (trail : List Vec2) (newPos : Vec2) : List Vec2 :=
  let distSq :=
    match trail.getLast? with
    | some lastPoint =>
        JsNum.add
          (JsNum.mul (JsNum.sub newPos.x lastPoint.x) (JsNum.sub newPos.x lastPoint.x))
          (JsNum.mul (JsNum.sub newPos.y lastPoint.y) (JsNum.sub newPos.y lastPoint.y))
    | none => JsNum.fin 999
  if JsNum.ltb (JsNum.fin 10) distSq then
    let t := trail ++ [newPos]
    if trailLength < t.length then t.drop (t.length - trailLength) else t
  else trail

/-- The per-body update of updatePhysics, lines 66-110: fixed bodies are
returned as they are; otherwise integrate, discard the update when the NaN
check fires, and record the trail. -/
def integrateBody (cfg : SimulationConfig) (dt : JsNum) (F : Vec2) (b : Body) : Body :=
  if b.isFixed then b
  else if nanGuard cfg dt F b then b
  else
    { b with
      pos := newPosOf cfg dt F b
      vel := newVelOf cfg dt F b
      trail := trailStep cfg.trailLength b.trail (newPosOf cfg dt F b) }

/-- updatePhysics of physicsEngine.ts.  bodies.map((body, i) => ...) is
modelled as a map over the index range. -/
def updatePhysics (bodies : List Body) (cfg : SimulationConfig) (dt : JsNum) : List Body :=
  if bodies.length = 0 then bodies
  else (List.range bodies.length).map fun i =>
    integrateBody cfg dt (computeForces bodies cfg i) (bAt bodies i)

end

/-! Helper lemmas about indexing the integration step. -/

theorem updatePhysics_length (bodies : List Body) (cfg : SimulationConfig) (dt : JsNum) :
    (updatePhysics bodies cfg dt).length = bodies.length := by
  unfold updatePhysics
  by_cases h : bodies.length = 0 <;> simp [h]

theorem updatePhysics_getElem? (bodies : List Body) (cfg : SimulationConfig) (dt : JsNum)
    (i : Nat) (h : i < bodies.length) :
    (updatePhysics bodies cfg dt)[i]? =
      some (integrateBody cfg dt (computeForces bodies cfg i) (bAt bodies i)) := by
  unfold updatePhysics
  have h0 : ¬ bodies.length = 0 := Nat.ne_of_gt (Nat.lt_of_le_of_lt (Nat.zero_le _) h)
  simp [h0, List.getElem?_map, List.getElem?_range, h]

theorem updatePhysics_bAt (bodies : List Body) (cfg : SimulationConfig) (dt : JsNum)
    (i : Nat) (h : i < bodies.length) :
    bAt (updatePhysics bodies cfg dt) i =
      integrateBody cfg dt (computeForces bodies cfg i) (bAt bodies i) := by
  unfold bAt
  rw [List.getD_eq_getElem?_getD, updatePhysics_getElem? bodies cfg dt i h]
  rfl

theorem bAt_of_getElem? (bodies : List Body) (i : Nat) (b : Body)
    (h : bodies[i]? = some b) : bAt bodies i = b := by
  unfold bAt
  rw [List.getD_eq_getElem?_getD, h]
  rfl

noncomputable section

/-- A small configuration with finite entries, used to instantiate theorems on
concrete inputs. -/
def demoCfg : SimulationConfig :=
  { G := JsNum.fin 1, timeScale := JsNum.fin 1, trailLength := 5, trailFade := false,
    collisionEnabled := false, softening := JsNum.fin 0, showTrails := false,
    showGrid := false, waveAmplitude := JsNum.fin 0, waveFrequency := JsNum.fin 0 }

/-- A non-fixed body with finite entries. -/
def demoBody : Body :=
  { id := "a", mass := JsNum.fin 1, density := JsNum.fin 1,
    pos := ⟨JsNum.fin 0, JsNum.fin 0⟩, vel := ⟨JsNum.fin 1, JsNum.fin 0⟩,
    radius := JsNum.fin 3, color := "c", trail := [], isFixed := false }

end

/-- C1: one call to updatePhysics gives every non-fixed body (whose update
passes the NaN check) the velocity v2 = v + (F/mass)*dt*timeScale and the
position p2 = p + v2*dt*timeScale, the position being computed from the
already updated velocity (semi-implicit Euler), where F is the pairwise
accumulated force of that body. -/
theorem C1_semi_implicit_euler (bodies : List Body) (cfg : SimulationConfig) (dt : JsNum)
    (i : Nat) (b : Body) (hb : bodies[i]? = some b) (hfix : b.isFixed = false)
    (hguard : nanGuard cfg dt (computeForces bodies cfg i) b = false) :
    (updatePhysics bodies cfg dt)[i]? = some { b with
        vel := newVelOf cfg dt (computeForces bodies cfg i) b
        pos := newPosOf cfg dt (computeForces bodies cfg i) b
        trail := trailStep cfg.trailLength b.trail
          (newPosOf cfg dt (computeForces bodies cfg i) b) } ∧
    newVelOf cfg dt (computeForces bodies cfg i) b =
      ⟨JsNum.add b.vel.x (JsNum.mul (JsNum.mul
          (JsNum.div (computeForces bodies cfg i).x b.mass) dt) cfg.timeScale),
       JsNum.add b.vel.y (JsNum.mul (JsNum.mul
          (JsNum.div (computeForces bodies cfg i).y b.mass) dt) cfg.timeScale)⟩ ∧
    newPosOf cfg dt (computeForces bodies cfg i) b =
      ⟨JsNum.add b.pos.x (JsNum.mul (JsNum.mul
          (newVelOf cfg dt (computeForces bodies cfg i) b).x dt) cfg.timeScale),
       JsNum.add b.pos.y (JsNum.mul (JsNum.mul
          (newVelOf cfg dt (computeForces bodies cfg i) b).y dt) cfg.timeScale)⟩ := by
  have hlt : i < bodies.length := by
    rcases List.getElem?_eq_some.mp hb with ⟨h, _⟩
    exact h
  refine ⟨?_, rfl, rfl⟩
  rw [updatePhysics_getElem? bodies cfg dt i hlt, bAt_of_getElem? bodies i b hb]
  simp [integrateBody, hfix, hguard]

/-- C1 witness: the theorem applied to a concrete one-body list. -/
theorem C1_semi_implicit_euler_witness :
    (updatePhysics [demoBody] demoCfg (JsNum.fin 1))[0]? = some { demoBody with
        vel := newVelOf demoCfg (JsNum.fin 1) (computeForces [demoBody] demoCfg 0) demoBody
        pos := newPosOf demoCfg (JsNum.fin 1) (computeForces [demoBody] demoCfg 0) demoBody
        trail := trailStep demoCfg.trailLength demoBody.trail
          (newPosOf demoCfg (JsNum.fin 1) (computeForces [demoBody] demoCfg 0) demoBody) } := by
  have hF : computeForces [demoBody] demoCfg 0 = ⟨JsNum.fin 0, JsNum.fin 0⟩ := rfl
  have hguard : nanGuard demoCfg (JsNum.fin 1) (computeForces [demoBody] demoCfg 0) demoBody
      = false := by
    rw [hF]
    simp [nanGuard, newPosOf, newVelOf, demoBody, demoCfg,
      JsNum.div_fin_fin_of_ne 0 1 (by norm_num)]
  exact (C1_semi_implicit_euler [demoBody] demoCfg (JsNum.fin 1) 0 demoBody rfl rfl hguard).1

/-! Helper lemmas for the fixed-body claim. -/

theorem integrateBody_fixed (cfg : SimulationConfig) (dt : JsNum) (F : Vec2) (b : Body)
    (h : b.isFixed = true) : integrateBody cfg dt F b = b := by
  simp [integrateBody, h]

theorem pairQuantities_congr (bodies bodies' : List Body)
    (hpm : ∀ j, (bAt bodies j).pos = (bAt bodies' j).pos ∧
           (bAt bodies j).mass = (bAt bodies' j).mass)
    (cfg : SimulationConfig) (p : Nat × Nat) :
    pairDist bodies p = pairDist bodies' p ∧
    pairFX bodies cfg p = pairFX bodies' cfg p ∧
    pairFY bodies cfg p = pairFY bodies' cfg p := by
  have hdx : pairDX bodies p = pairDX bodies' p := by
    unfold pairDX
    rw [(hpm p.2).1, (hpm p.1).1]
  have hdy : pairDY bodies p = pairDY bodies' p := by
    unfold pairDY
    rw [(hpm p.2).1, (hpm p.1).1]
  have hdsq : pairDistSq bodies p = pairDistSq bodies' p := by
    unfold pairDistSq
    rw [hdx, hdy]
  have hdist : pairDist bodies p = pairDist bodies' p := by
    unfold pairDist
    rw [hdsq]
  have hf : pairF bodies cfg p = pairF bodies' cfg p := by
    unfold pairF
    rw [hdsq, (hpm p.1).2, (hpm p.2).2]
  refine ⟨hdist, ?_, ?_⟩
  · unfold pairFX
    rw [hf, hdx, hdist]
  · unfold pairFY
    rw [hf, hdy, hdist]

theorem computeForces_congr (bodies bodies' : List Body) (cfg : SimulationConfig)
    (hlen : bodies.length = bodies'.length)
    (hpm : ∀ j, (bAt bodies j).pos = (bAt bodies' j).pos ∧
           (bAt bodies j).mass = (bAt bodies' j).mass) :
    computeForces bodies cfg = computeForces bodies' cfg := by
  have hstep : accumStep bodies cfg = accumStep bodies' cfg := by
    funext F p
    obtain ⟨hdist, hfx, hfy⟩ := pairQuantities_congr bodies bodies' hpm cfg p
    unfold accumStep
    rw [hdist, hfx, hfy]
  unfold computeForces
  rw [hlen, hstep]

/-- C4: a body with isFixed = true keeps every field unchanged across any
number of integration steps, and the force accumulation reads only positions
and masses, so a fixed body contributes force to the other accumulators
exactly as a free one would. -/
theorem C4_fixed_body_invariance :
    (∀ (bodies : List Body) (cfg : SimulationConfig) (dt : JsNum) (i k : Nat),
      i < bodies.length → (bAt bodies i).isFixed = true →
      bAt ((fun bs => updatePhysics bs cfg dt)^[k] bodies) i = bAt bodies i) ∧
    (∀ (bodies bodies' : List Body) (cfg : SimulationConfig),
      bodies.length = bodies'.length →
      (∀ j, (bAt bodies j).pos = (bAt bodies' j).pos ∧
            (bAt bodies j).mass = (bAt bodies' j).mass) →
      computeForces bodies cfg = computeForces bodies' cfg) := by
  constructor
  · intro bodies cfg dt i k
    induction k generalizing bodies with
    | zero => intro _ _; rfl
    | succ k ih =>
      intro hlen hfix
      rw [Function.iterate_succ_apply]
      have hstep : bAt (updatePhysics bodies cfg dt) i = bAt bodies i := by
        rw [updatePhysics_bAt bodies cfg dt i hlen]
        exact integrateBody_fixed cfg dt _ _ hfix
      have hlen' : i < (updatePhysics bodies cfg dt).length := by
        rw [updatePhysics_length]; exact hlen
      rw [ih (updatePhysics bodies cfg dt) hlen' (by rw [hstep]; exact hfix), hstep]
  · exact fun bodies bodies' cfg hlen hpm => computeForces_congr bodies bodies' cfg hlen hpm

/-- C4 witness: a concrete fixed body is unchanged by three steps, and turning
the fixed flag of a concrete body on leaves the force computation unchanged. -/
theorem C4_fixed_body_invariance_witness :
    bAt ((fun bs => updatePhysics bs demoCfg (JsNum.fin 1))^[3]
        [{ demoBody with isFixed := true }]) 0 = bAt [{ demoBody with isFixed := true }] 0 ∧
    computeForces [demoBody] demoCfg =
      computeForces [{ demoBody with isFixed := true }] demoCfg := by
  constructor
  · exact C4_fixed_body_invariance.1 [{ demoBody with isFixed := true }] demoCfg
      (JsNum.fin 1) 0 3 (by simp) rfl
  · exact C4_fixed_body_invariance.2 [demoBody] [{ demoBody with isFixed := true }] demoCfg
      rfl (fun j => by cases j <;> exact ⟨rfl, rfl⟩)

/-! Further evaluation lemmas for the special values. -/

theorem JsNum.mul_inf_fin_pos (y : ℝ) (h : 0 < y) : JsNum.mul JsNum.inf (JsNum.fin y) = JsNum.inf := by
  simp [JsNum.mul, h]

theorem JsNum.add_fin_inf (x : ℝ) : JsNum.add (JsNum.fin x) JsNum.inf = JsNum.inf := rfl

noncomputable section

/-- A body whose velocity x-component is already Infinity. -/
def infBody : Body := { demoBody with id := "i", vel := ⟨JsNum.inf, JsNum.fin 0⟩ }

/-- A body of mass 0 (the pairwise force on it is 0, so its acceleration is
0 / 0 = NaN). -/
def zmBody : Body := { demoBody with id := "z", mass := JsNum.fin 0 }

end

/-- C3 counterexample: the integration step keeps a update with a non-finite
(Infinity) component instead of discarding it.  For a single body whose
velocity x-component is Infinity, the newly computed velocity x-component is
Infinity (not finite), yet the returned body is not the unchanged input: the
returned position x-component is Infinity while the previous one was 0. -/
theorem C3_counterexample :
    JsNum.isFiniteb
      (newVelOf demoCfg (JsNum.fin 1) (computeForces [infBody] demoCfg 0) infBody).x = false ∧
    ((updatePhysics [infBody] demoCfg (JsNum.fin 1))[0]?.getD default).pos.x = JsNum.inf ∧
    infBody.pos.x = JsNum.fin 0 ∧
    JsNum.inf ≠ JsNum.fin 0 := by
  have hF : computeForces [infBody] demoCfg 0 = ⟨JsNum.fin 0, JsNum.fin 0⟩ := rfl
  have hvx : (newVelOf demoCfg (JsNum.fin 1) (computeForces [infBody] demoCfg 0) infBody).x
      = JsNum.inf := by
    rw [hF]
    simp [newVelOf, infBody, demoBody, demoCfg,
      JsNum.div_fin_fin_of_ne 0 1 (by norm_num), JsNum.add_fin_inf]
  have hvy : (newVelOf demoCfg (JsNum.fin 1) (computeForces [infBody] demoCfg 0) infBody).y
      = JsNum.fin 0 := by
    rw [hF]
    simp [newVelOf, infBody, demoBody, demoCfg,
      JsNum.div_fin_fin_of_ne 0 1 (by norm_num)]
  have hpx : (newPosOf demoCfg (JsNum.fin 1) (computeForces [infBody] demoCfg 0) infBody).x
      = JsNum.inf := by
    simp only [newPosOf]
    rw [hvx]
    simp [infBody, demoBody, demoCfg,
      JsNum.mul_inf_fin_pos 1 (by norm_num), JsNum.add_fin_inf]
  have hpy : (newPosOf demoCfg (JsNum.fin 1) (computeForces [infBody] demoCfg 0) infBody).y
      = JsNum.fin 0 := by
    simp only [newPosOf]
    rw [hvy]
    simp [infBody, demoBody, demoCfg]
  have hguard : nanGuard demoCfg (JsNum.fin 1) (computeForces [infBody] demoCfg 0) infBody
      = false := by
    simp [nanGuard, hvx, hvy, hpx, hpy]
  refine ⟨by rw [hvx]; rfl, ?_, rfl, by simp⟩
  rw [updatePhysics_getElem? [infBody] demoCfg (JsNum.fin 1) 0 (by simp)]
  have hbAt : bAt [infBody] 0 = infBody := rfl
  rw [hbAt]
  simp only [integrateBody, hguard]
  have hfix : infBody.isFixed = false := rfl
  simp [hfix, hpx]

/-- C3 amended: the safety check of the integration step discards the update
of a body exactly when some component of the newly computed position or
velocity is NaN (Infinity components are kept); a discarded body is returned
with its previous state unchanged, and every body of the step is processed
independently from its own force accumulator, so a failure never propagates to
the other bodies or halts the step. -/
theorem C3_nan_discard (bodies : List Body) (cfg : SimulationConfig) (dt : JsNum)
    (i : Nat) (b : Body) (hb : bodies[i]? = some b) (hfix : b.isFixed = false) :
    (nanGuard cfg dt (computeForces bodies cfg i) b = true →
      (updatePhysics bodies cfg dt)[i]? = some b) ∧
    nanGuard cfg dt (computeForces bodies cfg i) b =
      (JsNum.isNaNb (newPosOf cfg dt (computeForces bodies cfg i) b).x ||
       JsNum.isNaNb (newPosOf cfg dt (computeForces bodies cfg i) b).y ||
       JsNum.isNaNb (newVelOf cfg dt (computeForces bodies cfg i) b).x ||
       JsNum.isNaNb (newVelOf cfg dt (computeForces bodies cfg i) b).y) ∧
    (∀ j, j < bodies.length →
      (updatePhysics bodies cfg dt)[j]? =
        some (integrateBody cfg dt (computeForces bodies cfg j) (bAt bodies j))) := by
  have hlt : i < bodies.length := by
    rcases List.getElem?_eq_some.mp hb with ⟨h, _⟩
    exact h
  refine ⟨?_, rfl, fun j hj => updatePhysics_getElem? bodies cfg dt j hj⟩
  intro hguard
  rw [updatePhysics_getElem? bodies cfg dt i hlt, bAt_of_getElem? bodies i b hb]
  simp [integrateBody, hfix, hguard]

/-- C3 witness: the amended theorem applied to a concrete body of mass 0, for
which the computed acceleration is 0/0 = NaN, so its update is discarded. -/
theorem C3_nan_discard_witness :
    nanGuard demoCfg (JsNum.fin 1) (computeForces [zmBody] demoCfg 0) zmBody = true ∧
    (updatePhysics [zmBody] demoCfg (JsNum.fin 1))[0]? = some zmBody := by
  have hF : computeForces [zmBody] demoCfg 0 = ⟨JsNum.fin 0, JsNum.fin 0⟩ := rfl
  have hguard : nanGuard demoCfg (JsNum.fin 1) (computeForces [zmBody] demoCfg 0) zmBody
      = true := by
    rw [nanGuard, hF]
    simp [newPosOf, newVelOf, zmBody, demoBody, demoCfg, JsNum.div]
  exact ⟨hguard,
    (C3_nan_discard [zmBody] demoCfg (JsNum.fin 1) 0 zmBody rfl rfl).1 hguard⟩

/-! Helper lemmas for the trail claim. -/

theorem trailStep_length_le (tl : Nat) (trail : List Vec2) (np : Vec2)
    (h : trail.length ≤ tl) : (trailStep tl trail np).length ≤ tl := by
  unfold trailStep
  by_cases hthr : JsNum.ltb (JsNum.fin 10)
      (match trail.getLast? with
       | some lastPoint =>
           JsNum.add
             (JsNum.mul (JsNum.sub np.x lastPoint.x) (JsNum.sub np.x lastPoint.x))
             (JsNum.mul (JsNum.sub np.y lastPoint.y) (JsNum.sub np.y lastPoint.y))
       | none => JsNum.fin 999) = true
  · rw [if_pos hthr]
    by_cases hlen : tl < (trail ++ [np]).length
    · rw [if_pos hlen]
      rw [List.length_drop]
      omega
    · rw [if_neg hlen]
      omega
  · rw [if_neg hthr]
    exact h

theorem integrateBody_trail_cases (cfg : SimulationConfig) (dt : JsNum) (F : Vec2) (b : Body) :
    (integrateBody cfg dt F b).trail = b.trail ∨
    (integrateBody cfg dt F b).trail =
      trailStep cfg.trailLength b.trail (newPosOf cfg dt F b) := by
  unfold integrateBody
  by_cases hfix : b.isFixed
  · left; rw [if_pos hfix]
  · rw [if_neg hfix]
    by_cases hg : nanGuard cfg dt F b
    · left; rw [if_pos hg]
    · right; rw [if_neg hg]

/-- C5: for a non-fixed body whose update is kept, the new position is
appended to a nonempty trail exactly when its squared distance from the last
recorded point exceeds 10 (an empty trail always receives the point); after an
append, when the bound is exceeded the trail is cut to its last trailLength
elements (oldest dropped from the front); and the length bound
trail.length <= trailLength is preserved by every step for every body. -/
theorem C5_trail_recording :
    (∀ (cfg : SimulationConfig) (dt : JsNum) (F : Vec2) (b : Body),
      b.isFixed = false → nanGuard cfg dt F b = false →
      (integrateBody cfg dt F b).trail =
        trailStep cfg.trailLength b.trail (newPosOf cfg dt F b)) ∧
    (∀ (tl : Nat) (trail : List Vec2) (np L : Vec2), trail.getLast? = some L →
      JsNum.ltb (JsNum.fin 10)
        (JsNum.add (JsNum.mul (JsNum.sub np.x L.x) (JsNum.sub np.x L.x))
          (JsNum.mul (JsNum.sub np.y L.y) (JsNum.sub np.y L.y))) = false →
      trailStep tl trail np = trail) ∧
    (∀ (tl : Nat) (trail : List Vec2) (np L : Vec2), trail.getLast? = some L →
      JsNum.ltb (JsNum.fin 10)
        (JsNum.add (JsNum.mul (JsNum.sub np.x L.x) (JsNum.sub np.x L.x))
          (JsNum.mul (JsNum.sub np.y L.y) (JsNum.sub np.y L.y))) = true →
      trailStep tl trail np =
        (if tl < trail.length + 1 then (trail ++ [np]).drop (trail.length + 1 - tl)
         else trail ++ [np]) ∧
      (tl < trail.length + 1 → (trailStep tl trail np).length = tl)) ∧
    (∀ (tl : Nat) (np : Vec2),
      trailStep tl [] np = if tl < 1 then ([] : List Vec2) else [np]) ∧
    (∀ (bodies : List Body) (cfg : SimulationConfig) (dt : JsNum),
      (∀ b ∈ bodies, b.trail.length ≤ cfg.trailLength) →
      ∀ b' ∈ updatePhysics bodies cfg dt, b'.trail.length ≤ cfg.trailLength) := by
  refine ⟨?_, ?_, ?_, ?_, ?_⟩
  · intro cfg dt F b hfix hg
    simp [integrateBody, hfix, hg]
  · intro tl trail np L hlast hthr
    simp [trailStep, hlast, hthr]
  · intro tl trail np L hlast hthr
    constructor
    · simp [trailStep, hlast, hthr]
    · intro hlen
      simp [trailStep, hlast, hthr, hlen, List.length_drop]
      omega
  · intro tl np
    have hlt : JsNum.ltb (JsNum.fin 10) (JsNum.fin 999) = true := by
      rw [JsNum.ltb_fin_fin]
      simp only [decide_eq_true_eq]
      norm_num
    by_cases h1 : tl < 1
    · have htl : tl = 0 := Nat.lt_one_iff.mp h1
      subst htl
      simp [trailStep, hlt]
    · simp [trailStep, hlt, h1]
  · intro bodies cfg dt hin b' hb'
    unfold updatePhysics at hb'
    by_cases h0 : bodies.length = 0
    · rw [if_pos h0] at hb'
      exact hin b' hb'
    · rw [if_neg h0] at hb'
      rcases List.mem_map.mp hb' with ⟨i, hi, rfl⟩
      have hilt : i < bodies.length := List.mem_range.mp hi
      have hmem : bAt bodies i ∈ bodies := by
        unfold bAt
        rw [List.getD_eq_getElem bodies default hilt]
        exact List.getElem_mem hilt
      have hbase : (bAt bodies i).trail.length ≤ cfg.trailLength := hin _ hmem
      rcases integrateBody_trail_cases cfg dt (computeForces bodies cfg i) (bAt bodies i)
        with hcase | hcase
      · rw [hcase]; exact hbase
      · rw [hcase]
        exact trailStep_length_le cfg.trailLength (bAt bodies i).trail _ hbase

/-- Concrete trail points for the C5 witness. -/
noncomputable def p00 : Vec2 := ⟨JsNum.fin 0, JsNum.fin 0⟩

/-- Concrete trail point (1, 0). -/
noncomputable def p10 : Vec2 := ⟨JsNum.fin 1, JsNum.fin 0⟩

/-- Concrete new position far from (1, 0). -/
noncomputable def pFar : Vec2 := ⟨JsNum.fin 10, JsNum.fin 0⟩

/-- C5 witness: the theorem applied on concrete inputs: a two-point trail with
a far new point is appended and then cut to the last two points, and a
bounded concrete step keeps the bound. -/
theorem C5_trail_recording_witness :
    trailStep 2 [p00, p10] pFar =
      (if 2 < [p00, p10].length + 1 then
        ([p00, p10] ++ [pFar]).drop ([p00, p10].length + 1 - 2)
       else [p00, p10] ++ [pFar]) ∧
    ∀ b' ∈ updatePhysics [demoBody] demoCfg (JsNum.fin 1),
      b'.trail.length ≤ demoCfg.trailLength := by
  constructor
  · exact (C5_trail_recording.2.2.1 2 [p00, p10] pFar p10 rfl
      (by simp [pFar, p10]; norm_num)).1
  · exact C5_trail_recording.2.2.2.2 [demoBody] demoCfg (JsNum.fin 1)
      (by intro b hb; simp at hb; subst hb; simp [demoBody, demoCfg])

/-! Finiteness predicates for the divergence-containment claim. -/

theorem JsNum.isFiniteb_iff (a : JsNum) : JsNum.isFiniteb a = true ↔ ∃ x, a = JsNum.fin x := by
  cases a <;> simp [JsNum.isFiniteb]

noncomputable section

/-- Both components of a vector are finite. -/
def vecFiniteb (v : Vec2) : Bool := JsNum.isFiniteb v.x && JsNum.isFiniteb v.y

/-- Every numeric component of a body (position, velocity, mass, density,
radius and every trail point) is finite. -/
def bodyFiniteb (b : Body) : Bool :=
  vecFiniteb b.pos && vecFiniteb b.vel && JsNum.isFiniteb b.mass &&
    JsNum.isFiniteb b.density && JsNum.isFiniteb b.radius && b.trail.all vecFiniteb

/-- The numeric configuration entries read by the engine are finite. -/
def cfgFiniteb (cfg : SimulationConfig) : Bool :=
  JsNum.isFiniteb cfg.G && JsNum.isFiniteb cfg.timeScale && JsNum.isFiniteb cfg.softening

end

theorem vecFiniteb_parts (v : Vec2) (h : vecFiniteb v = true) :
    (∃ x, v.x = JsNum.fin x) ∧ ∃ y, v.y = JsNum.fin y := by
  rw [vecFiniteb, Bool.and_eq_true, JsNum.isFiniteb_iff, JsNum.isFiniteb_iff] at h
  exact h

theorem bodyFiniteb_parts (b : Body) (h : bodyFiniteb b = true) :
    ((∃ x, b.pos.x = JsNum.fin x) ∧ ∃ y, b.pos.y = JsNum.fin y) ∧
    ((∃ x, b.vel.x = JsNum.fin x) ∧ ∃ y, b.vel.y = JsNum.fin y) ∧
    (∃ m, b.mass = JsNum.fin m) ∧
    (∃ d, b.density = JsNum.fin d) ∧
    (∃ r, b.radius = JsNum.fin r) ∧
    ∀ q ∈ b.trail, vecFiniteb q = true := by
  rw [bodyFiniteb] at h
  simp only [Bool.and_eq_true, List.all_eq_true] at h
  obtain ⟨⟨⟨⟨⟨hp, hv⟩, hm⟩, hd⟩, hr⟩, ht⟩ := h
  exact ⟨vecFiniteb_parts _ hp, vecFiniteb_parts _ hv, (JsNum.isFiniteb_iff _).mp hm,
    (JsNum.isFiniteb_iff _).mp hd, (JsNum.isFiniteb_iff _).mp hr, ht⟩

theorem bAt_mem (bodies : List Body) (i : Nat) (h : i < bodies.length) :
    bAt bodies i ∈ bodies := by
  unfold bAt
  rw [List.getD_eq_getElem bodies default h]
  exact List.getElem_mem h

theorem pairIdx_mem_lt (n : Nat) (p : Nat × Nat) (h : p ∈ pairIdx n) :
    p.1 < n ∧ p.2 < n ∧ p.1 < p.2 := by
  unfold pairIdx at h
  simp only [List.mem_flatMap, List.mem_map, List.mem_filter, List.mem_range] at h
  obtain ⟨i, hi, j, ⟨hj, hij⟩, rfl⟩ := h
  exact ⟨hi, hj, by simpa using hij⟩

theorem pair_fin (bodies : List Body) (cfg : SimulationConfig) (p : Nat × Nat)
    (h1 : p.1 < bodies.length) (h2 : p.2 < bodies.length)
    (hfin : ∀ b ∈ bodies, bodyFiniteb b = true) (hcfg : cfgFiniteb cfg = true)
    (hskip : JsNum.ltb (pairDist bodies p) (JsNum.fin 1) = false) :
    (∃ u, pairFX bodies cfg p = JsNum.fin u) ∧
    (∃ v, pairFY bodies cfg p = JsNum.fin v) ∧
    ((bAt bodies p.1).mass = JsNum.fin 0 →
      pairFX bodies cfg p = JsNum.fin 0 ∧ pairFY bodies cfg p = JsNum.fin 0) ∧
    ((bAt bodies p.2).mass = JsNum.fin 0 →
      pairFX bodies cfg p = JsNum.fin 0 ∧ pairFY bodies cfg p = JsNum.fin 0) := by
  obtain ⟨⟨⟨x1, hx1⟩, ⟨y1, hy1⟩⟩, _, ⟨m1, hm1⟩, _⟩ :=
    bodyFiniteb_parts _ (hfin _ (bAt_mem bodies p.1 h1))
  obtain ⟨⟨⟨x2, hx2⟩, ⟨y2, hy2⟩⟩, _, ⟨m2, hm2⟩, _⟩ :=
    bodyFiniteb_parts _ (hfin _ (bAt_mem bodies p.2 h2))
  rw [cfgFiniteb] at hcfg
  simp only [Bool.and_eq_true, JsNum.isFiniteb_iff] at hcfg
  obtain ⟨⟨⟨g, hg⟩, _⟩, ⟨c, hc⟩⟩ := hcfg
  have hdx : pairDX bodies p = JsNum.fin (x2 + -x1) := by
    rw [pairDX, hx2, hx1]; rfl
  have hdy : pairDY bodies p = JsNum.fin (y2 + -y1) := by
    rw [pairDY, hy2, hy1]; rfl
  set dx := x2 + -x1 with hdxv
  set dy := y2 + -y1 with hdyv
  have hdsq : pairDistSq bodies p = JsNum.fin (dx * dx + dy * dy) := by
    rw [pairDistSq, hdx, hdy]; rfl
  set s := dx * dx + dy * dy with hsv
  have hs0 : 0 ≤ s := add_nonneg (mul_self_nonneg dx) (mul_self_nonneg dy)
  have hdist : pairDist bodies p = JsNum.fin (Real.sqrt s) := by
    rw [pairDist, hdsq, JsNum.sqrt_fin_of_nonneg s hs0]
  have hsqrt1 : 1 ≤ Real.sqrt s := by
    rw [hdist, JsNum.ltb_fin_fin] at hskip
    exact not_lt.mp (of_decide_eq_false hskip)
  have hsqrt_ne : Real.sqrt s ≠ 0 := by
    intro h0
    rw [h0] at hsqrt1
    linarith
  have hden_ne : s + c * c ≠ 0 := by
    intro h0
    have hcc : 0 ≤ c * c := mul_self_nonneg c
    have hs : s = 0 := by linarith
    rw [hs, Real.sqrt_zero] at hsqrt1
    linarith
  have hf : pairF bodies cfg p = JsNum.fin (g * m1 * m2 / (s + c * c)) := by
    rw [pairF, hg, hm1, hm2, hdsq, hc]
    rw [JsNum.mul_fin_fin, JsNum.mul_fin_fin, JsNum.mul_fin_fin, JsNum.add_fin_fin]
    exact JsNum.div_fin_fin_of_ne _ _ hden_ne
  have hfx : pairFX bodies cfg p =
      JsNum.fin (g * m1 * m2 / (s + c * c) * (dx / Real.sqrt s)) := by
    rw [pairFX, hf, hdx, hdist, JsNum.div_fin_fin_of_ne _ _ hsqrt_ne, JsNum.mul_fin_fin]
  have hfy : pairFY bodies cfg p =
      JsNum.fin (g * m1 * m2 / (s + c * c) * (dy / Real.sqrt s)) := by
    rw [pairFY, hf, hdy, hdist, JsNum.div_fin_fin_of_ne _ _ hsqrt_ne, JsNum.mul_fin_fin]
  refine ⟨⟨_, hfx⟩, ⟨_, hfy⟩, ?_, ?_⟩
  · intro hz
    rw [hm1] at hz
    have : m1 = 0 := by simpa using hz
    subst this
    constructor
    · rw [hfx]; norm_num
    · rw [hfy]; norm_num
  · intro hz
    rw [hm2] at hz
    have : m2 = 0 := by simpa using hz
    subst this
    constructor
    · rw [hfx]; norm_num
    · rw [hfy]; norm_num

theorem JsNum.div_zero_zero : JsNum.div (JsNum.fin 0) (JsNum.fin 0) = JsNum.nan := by
  simp [JsNum.div]

theorem accumStep_inv (bodies : List Body) (cfg : SimulationConfig) (p : Nat × Nat)
    (h1 : p.1 < bodies.length) (h2 : p.2 < bodies.length)
    (hfin : ∀ b ∈ bodies, bodyFiniteb b = true) (hcfg : cfgFiniteb cfg = true)
    (F : Nat → Vec2)
    (hF : ∀ k, (∃ u, (F k).x = JsNum.fin u) ∧ (∃ v, (F k).y = JsNum.fin v) ∧
      ((bAt bodies k).mass = JsNum.fin 0 → F k = ⟨JsNum.fin 0, JsNum.fin 0⟩)) :
    ∀ k, (∃ u, (accumStep bodies cfg F p k).x = JsNum.fin u) ∧
      (∃ v, (accumStep bodies cfg F p k).y = JsNum.fin v) ∧
      ((bAt bodies k).mass = JsNum.fin 0 →
        accumStep bodies cfg F p k = ⟨JsNum.fin 0, JsNum.fin 0⟩) := by
  intro k
  unfold accumStep
  by_cases hskip : JsNum.ltb (pairDist bodies p) (JsNum.fin 1) = true
  · rw [if_pos hskip]
    exact hF k
  · rw [if_neg hskip]
    obtain ⟨⟨u, hu⟩, ⟨v, hv⟩, hz1, hz2⟩ :=
      pair_fin bodies cfg p h1 h2 hfin hcfg (Bool.not_eq_true _ ▸ hskip)
    obtain ⟨⟨a, ha⟩, ⟨c, hc⟩, hzk⟩ := hF k
    by_cases hk1 : k = p.1
    · simp only [if_pos hk1]
      refine ⟨⟨a + u, by rw [ha, hu]; rfl⟩, ⟨c + v, by rw [hc, hv]; rfl⟩, ?_⟩
      intro hmz
      have hzF := hzk hmz
      obtain ⟨hfx0, hfy0⟩ := hz1 (hk1 ▸ hmz)
      rw [hzF, hfx0, hfy0]
      show (⟨JsNum.add (JsNum.fin 0) (JsNum.fin 0), JsNum.add (JsNum.fin 0) (JsNum.fin 0)⟩ : Vec2)
        = ⟨JsNum.fin 0, JsNum.fin 0⟩
      norm_num
    · by_cases hk2 : k = p.2
      · simp only [if_neg hk1, if_pos hk2]
        refine ⟨⟨a + -u, by rw [ha, hu]; rfl⟩, ⟨c + -v, by rw [hc, hv]; rfl⟩, ?_⟩
        intro hmz
        have hzF := hzk hmz
        obtain ⟨hfx0, hfy0⟩ := hz2 (hk2 ▸ hmz)
        rw [hzF, hfx0, hfy0]
        show (⟨JsNum.sub (JsNum.fin 0) (JsNum.fin 0), JsNum.sub (JsNum.fin 0) (JsNum.fin 0)⟩ : Vec2)
          = ⟨JsNum.fin 0, JsNum.fin 0⟩
        norm_num
      · simp only [if_neg hk1, if_neg hk2]
        exact ⟨⟨a, ha⟩, ⟨c, hc⟩, hzk⟩

theorem computeForces_inv (bodies : List Body) (cfg : SimulationConfig)
    (hfin : ∀ b ∈ bodies, bodyFiniteb b = true) (hcfg : cfgFiniteb cfg = true) :
    ∀ k, (∃ u, (computeForces bodies cfg k).x = JsNum.fin u) ∧
      (∃ v, (computeForces bodies cfg k).y = JsNum.fin v) ∧
      ((bAt bodies k).mass = JsNum.fin 0 →
        computeForces bodies cfg k = ⟨JsNum.fin 0, JsNum.fin 0⟩) := by
  have main : ∀ (ps : List (Nat × Nat)),
      (∀ p ∈ ps, p.1 < bodies.length ∧ p.2 < bodies.length) →
      ∀ (F : Nat → Vec2),
      (∀ k, (∃ u, (F k).x = JsNum.fin u) ∧ (∃ v, (F k).y = JsNum.fin v) ∧
        ((bAt bodies k).mass = JsNum.fin 0 → F k = ⟨JsNum.fin 0, JsNum.fin 0⟩)) →
      ∀ k, (∃ u, ((ps.foldl (accumStep bodies cfg) F) k).x = JsNum.fin u) ∧
        (∃ v, ((ps.foldl (accumStep bodies cfg) F) k).y = JsNum.fin v) ∧
        ((bAt bodies k).mass = JsNum.fin 0 →
          (ps.foldl (accumStep bodies cfg) F) k = ⟨JsNum.fin 0, JsNum.fin 0⟩) := by
    intro ps
    induction ps with
    | nil => intro _ F hF; exact hF
    | cons p ps ih =>
      intro hmem F hF
      rw [List.foldl_cons]
      exact ih (fun q hq => hmem q (List.mem_cons_of_mem p hq))
        (accumStep bodies cfg F p)
        (accumStep_inv bodies cfg p (hmem p (List.mem_cons_self p ps)).1
          (hmem p (List.mem_cons_self p ps)).2 hfin hcfg F hF)
  exact main (pairIdx bodies.length)
    (fun p hp => ⟨(pairIdx_mem_lt _ p hp).1, (pairIdx_mem_lt _ p hp).2.1⟩)
    (fun _ => ⟨JsNum.fin 0, JsNum.fin 0⟩)
    (fun _ => ⟨⟨0, rfl⟩, ⟨0, rfl⟩, fun _ => rfl⟩)

theorem trailStep_all_finite (tl : Nat) (trail : List Vec2) (np : Vec2)
    (ht : ∀ q ∈ trail, vecFiniteb q = true) (hnp : vecFiniteb np = true) :
    ∀ q ∈ trailStep tl trail np, vecFiniteb q = true := by
  intro q hq
  unfold trailStep at hq
  by_cases hthr : JsNum.ltb (JsNum.fin 10)
      (match trail.getLast? with
       | some lastPoint =>
           JsNum.add
             (JsNum.mul (JsNum.sub np.x lastPoint.x) (JsNum.sub np.x lastPoint.x))
             (JsNum.mul (JsNum.sub np.y lastPoint.y) (JsNum.sub np.y lastPoint.y))
       | none => JsNum.fin 999) = true
  · rw [if_pos hthr] at hq
    by_cases hlen : tl < (trail ++ [np]).length
    · rw [if_pos hlen] at hq
      have hq2 : q ∈ trail ++ [np] := List.mem_of_mem_drop hq
      rcases List.mem_append.mp hq2 with hql | hqr
      · exact ht q hql
      · rw [List.mem_singleton.mp hqr]; exact hnp
    · rw [if_neg hlen] at hq
      rcases List.mem_append.mp hq with hql | hqr
      · exact ht q hql
      · rw [List.mem_singleton.mp hqr]; exact hnp
  · rw [if_neg hthr] at hq
    exact ht q hq

theorem integrateBody_finite (cfg : SimulationConfig) (dt : JsNum) (F : Vec2) (b : Body)
    (hb : bodyFiniteb b = true) (hcfg : cfgFiniteb cfg = true)
    (hdt : ∃ t, dt = JsNum.fin t)
    (hFx : ∃ u, F.x = JsNum.fin u) (hFy : ∃ v, F.y = JsNum.fin v)
    (hzm : b.mass = JsNum.fin 0 → F = ⟨JsNum.fin 0, JsNum.fin 0⟩) :
    bodyFiniteb (integrateBody cfg dt F b) = true := by
  obtain ⟨⟨⟨px, hpx⟩, ⟨py, hpy⟩⟩, ⟨⟨vx, hvx⟩, ⟨vy, hvy⟩⟩, ⟨m, hm⟩, ⟨d, hd⟩, ⟨r, hr⟩, htr⟩ :=
    bodyFiniteb_parts b hb
  obtain ⟨t, rfl⟩ := hdt
  have hts : ∃ ts, cfg.timeScale = JsNum.fin ts := by
    rw [cfgFiniteb] at hcfg
    simp only [Bool.and_eq_true, JsNum.isFiniteb_iff] at hcfg
    exact hcfg.1.2
  obtain ⟨ts, hts⟩ := hts
  by_cases hfix : b.isFixed = true
  · rw [integrateBody, if_pos hfix]
    exact hb
  · by_cases hmz : m = 0
    · subst hmz
      have hF0 : F = ⟨JsNum.fin 0, JsNum.fin 0⟩ := hzm (by rw [hm])
      subst hF0
      have hnvx : (newVelOf cfg (JsNum.fin t) ⟨JsNum.fin 0, JsNum.fin 0⟩ b).x = JsNum.nan := by
        simp only [newVelOf]
        rw [hm, JsNum.div_zero_zero]
        simp
      have hguard : nanGuard cfg (JsNum.fin t) ⟨JsNum.fin 0, JsNum.fin 0⟩ b = true := by
        simp [nanGuard, hnvx]
      rw [integrateBody, if_neg hfix, if_pos hguard]
      exact hb
    · obtain ⟨u, hFxu⟩ := hFx
      obtain ⟨v, hFyv⟩ := hFy
      have hnvx : (newVelOf cfg (JsNum.fin t) F b).x = JsNum.fin (vx + u / m * t * ts) := by
        simp only [newVelOf]
        rw [hFxu, hm, hvx, hts, JsNum.div_fin_fin_of_ne u m hmz,
          JsNum.mul_fin_fin, JsNum.mul_fin_fin, JsNum.add_fin_fin]
      have hnvy : (newVelOf cfg (JsNum.fin t) F b).y = JsNum.fin (vy + v / m * t * ts) := by
        simp only [newVelOf]
        rw [hFyv, hm, hvy, hts, JsNum.div_fin_fin_of_ne v m hmz,
          JsNum.mul_fin_fin, JsNum.mul_fin_fin, JsNum.add_fin_fin]
      have hnpx : (newPosOf cfg (JsNum.fin t) F b).x
          = JsNum.fin (px + (vx + u / m * t * ts) * t * ts) := by
        simp only [newPosOf]
        rw [hnvx, hpx, hts, JsNum.mul_fin_fin, JsNum.mul_fin_fin, JsNum.add_fin_fin]
      have hnpy : (newPosOf cfg (JsNum.fin t) F b).y
          = JsNum.fin (py + (vy + v / m * t * ts) * t * ts) := by
        simp only [newPosOf]
        rw [hnvy, hpy, hts, JsNum.mul_fin_fin, JsNum.mul_fin_fin, JsNum.add_fin_fin]
      have hguard : nanGuard cfg (JsNum.fin t) F b = false := by
        simp [nanGuard, hnvx, hnvy, hnpx, hnpy]
      have hPfin : vecFiniteb (newPosOf cfg (JsNum.fin t) F b) = true := by
        rw [vecFiniteb, hnpx, hnpy]; rfl
      have hVfin : vecFiniteb (newVelOf cfg (JsNum.fin t) F b) = true := by
        rw [vecFiniteb, hnvx, hnvy]; rfl
      have hguard2 : ¬ nanGuard cfg (JsNum.fin t) F b = true := by
        rw [hguard]; simp
      rw [integrateBody, if_neg hfix, if_neg hguard2]
      simp only [bodyFiniteb, Bool.and_eq_true, List.all_eq_true]
      exact ⟨⟨⟨⟨⟨hPfin, hVfin⟩, show JsNum.isFiniteb b.mass = true by rw [hm]; rfl⟩,
        show JsNum.isFiniteb b.density = true by rw [hd]; rfl⟩,
        show JsNum.isFiniteb b.radius = true by rw [hr]; rfl⟩,
        fun q hq => trailStep_all_finite cfg.trailLength b.trail _ htr hPfin q hq⟩

/-- Second demo body, at the same position as demoBody. -/
noncomputable def demoBody2 : Body := { demoBody with id := "b" }

/-- The contribution of the loop iteration for the pair p to the force
accumulator entry of index k: zero for a skipped pair, the pair force vector
(fx, fy) for k = i, its negation for k = j, zero otherwise. -/
noncomputable def pairContrib (bodies : List Body) (cfg : SimulationConfig)
    (p : Nat × Nat) (k : Nat) : Vec2 :=
  if JsNum.ltb (pairDist bodies p) (JsNum.fin 1) then ⟨JsNum.fin 0, JsNum.fin 0⟩
  else if k = p.1 then ⟨pairFX bodies cfg p, pairFY bodies cfg p⟩
  else if k = p.2 then ⟨JsNum.neg (pairFX bodies cfg p), JsNum.neg (pairFY bodies cfg p)⟩
  else ⟨JsNum.fin 0, JsNum.fin 0⟩

theorem accumStep_point (bodies : List Body) (cfg : SimulationConfig) (F : Nat → Vec2)
    (p : Nat × Nat) (k : Nat) :
    accumStep bodies cfg F p k =
      ⟨JsNum.add (F k).x (pairContrib bodies cfg p k).x,
       JsNum.add (F k).y (pairContrib bodies cfg p k).y⟩ := by
  unfold accumStep pairContrib
  by_cases hskip : JsNum.ltb (pairDist bodies p) (JsNum.fin 1) = true
  · rw [if_pos hskip, if_pos hskip]
    show F k = ⟨JsNum.add (F k).x (JsNum.fin 0), JsNum.add (F k).y (JsNum.fin 0)⟩
    rw [JsNum.add_zero_right, JsNum.add_zero_right]
  · rw [if_neg hskip, if_neg hskip]
    by_cases hk1 : k = p.1
    · rw [if_pos hk1, if_pos hk1]
    · rw [if_neg hk1, if_neg hk1]
      by_cases hk2 : k = p.2
      · rw [if_pos hk2, if_pos hk2]
        rfl
      · rw [if_neg hk2, if_neg hk2]
        show F k = ⟨JsNum.add (F k).x (JsNum.fin 0), JsNum.add (F k).y (JsNum.fin 0)⟩
        rw [JsNum.add_zero_right, JsNum.add_zero_right]

theorem computeForces_eq_contrib_sum (bodies : List Body) (cfg : SimulationConfig) (k : Nat) :
    computeForces bodies cfg k =
      (pairIdx bodies.length).foldl
        (fun acc p => ⟨JsNum.add acc.x (pairContrib bodies cfg p k).x,
                       JsNum.add acc.y (pairContrib bodies cfg p k).y⟩)
        ⟨JsNum.fin 0, JsNum.fin 0⟩ := by
  have main : ∀ (ps : List (Nat × Nat)) (F : Nat → Vec2),
      (ps.foldl (accumStep bodies cfg) F) k =
        ps.foldl
          (fun acc p => ⟨JsNum.add acc.x (pairContrib bodies cfg p k).x,
                         JsNum.add acc.y (pairContrib bodies cfg p k).y⟩) (F k) := by
    intro ps
    induction ps with
    | nil => intro F; rfl
    | cons p ps ih =>
      intro F
      rw [List.foldl_cons, List.foldl_cons, ih, accumStep_point]
  exact main (pairIdx bodies.length) _

theorem pairIdx_nodup (n : Nat) : (pairIdx n).Nodup := by
  rw [pairIdx, List.nodup_flatMap]
  constructor
  · intro i _
    refine List.Nodup.map ?_ (List.Nodup.filter _ (List.nodup_range n))
    intro a b hab
    simpa using congrArg Prod.snd hab
  · refine List.Pairwise.imp ?_ (List.pairwise_lt_range n)
    intro i1 i2 h12
    rw [Function.onFun, List.disjoint_left]
    rintro ⟨a, b⟩ ha hb
    rcases List.mem_map.mp ha with ⟨j, _, hj⟩
    rcases List.mem_map.mp hb with ⟨j2, _, hj2⟩
    have h1 : i1 = a := congrArg Prod.fst hj
    have h2 : i2 = a := congrArg Prod.fst hj2
    exact absurd (h1.trans h2.symm) (Nat.ne_of_lt h12)

theorem pairIdx_mem (n i j : Nat) (hij : i < j) (hj : j < n) : (i, j) ∈ pairIdx n := by
  unfold pairIdx
  simp only [List.mem_flatMap, List.mem_map, List.mem_filter, List.mem_range]
  exact ⟨i, Nat.lt_trans hij hj, j, ⟨hj, by simpa using hij⟩, rfl⟩

/-- C2 amended: the visit list of the force loop holds every processed pair
exactly once (it has no duplicates and contains (i, j)); the accumulator of index k is the zero-initialised running
sum of the per-pair contributions; for a pair that passes the distance guard,
body i (not body j) receives the vector f * Delta / r with
Delta = pos_j - pos_i, and body j receives its exact negation; f is the
softened magnitude G * m_i * m_j / (distSq + softening^2) with
distSq = |Delta|^2. -/
theorem C2_pairwise_force_accumulation (bodies : List Body) (cfg : SimulationConfig)
    (i j : Nat) (hij : i < j) (hj : j < bodies.length)
    (hskip : JsNum.ltb (pairDist bodies (i, j)) (JsNum.fin 1) = false) :
    (pairIdx bodies.length).Nodup ∧ (i, j) ∈ pairIdx bodies.length ∧
    (∀ k, computeForces bodies cfg k =
      (pairIdx bodies.length).foldl
        (fun acc p => ⟨JsNum.add acc.x (pairContrib bodies cfg p k).x,
                       JsNum.add acc.y (pairContrib bodies cfg p k).y⟩)
        ⟨JsNum.fin 0, JsNum.fin 0⟩) ∧
    pairContrib bodies cfg (i, j) i =
      ⟨pairFX bodies cfg (i, j), pairFY bodies cfg (i, j)⟩ ∧
    pairContrib bodies cfg (i, j) j =
      ⟨JsNum.neg (pairFX bodies cfg (i, j)), JsNum.neg (pairFY bodies cfg (i, j))⟩ ∧
    pairFX bodies cfg (i, j) =
      JsNum.mul (pairF bodies cfg (i, j))
        (JsNum.div (pairDX bodies (i, j)) (pairDist bodies (i, j))) ∧
    pairFY bodies cfg (i, j) =
      JsNum.mul (pairF bodies cfg (i, j))
        (JsNum.div (pairDY bodies (i, j)) (pairDist bodies (i, j))) ∧
    pairF bodies cfg (i, j) =
      JsNum.div (JsNum.mul (JsNum.mul cfg.G (bAt bodies i).mass) (bAt bodies j).mass)
        (JsNum.add (pairDistSq bodies (i, j)) (JsNum.mul cfg.softening cfg.softening)) := by
  have hskip2 : ¬ JsNum.ltb (pairDist bodies (i, j)) (JsNum.fin 1) = true := by
    rw [hskip]; simp
  refine ⟨pairIdx_nodup bodies.length, pairIdx_mem bodies.length i j hij hj,
    fun k => computeForces_eq_contrib_sum bodies cfg k, ?_, ?_, rfl, rfl, rfl⟩
  · rw [pairContrib, if_neg hskip2, if_pos rfl]
  · rw [pairContrib, if_neg hskip2, if_neg (by exact fun h => absurd h (Nat.ne_of_gt hij)),
      if_pos rfl]

/-- A body 3 world units to the right of demoBody. -/
noncomputable def cbB : Body := { demoBody with id := "d", pos := ⟨JsNum.fin 3, JsNum.fin 0⟩ }

theorem cbPair_dx : pairDX [demoBody, cbB] (0, 1) = JsNum.fin 3 := by
  simp [pairDX, bAt, cbB, demoBody]

theorem cbPair_dy : pairDY [demoBody, cbB] (0, 1) = JsNum.fin 0 := by
  simp [pairDY, bAt, cbB, demoBody]

theorem cbPair_dsq : pairDistSq [demoBody, cbB] (0, 1) = JsNum.fin 9 := by
  rw [pairDistSq, cbPair_dx, cbPair_dy, JsNum.mul_fin_fin, JsNum.mul_fin_fin,
    JsNum.add_fin_fin]
  norm_num

theorem cbPair_dist : pairDist [demoBody, cbB] (0, 1) = JsNum.fin 3 := by
  rw [pairDist, cbPair_dsq, JsNum.sqrt_fin_of_nonneg 9 (by norm_num)]
  rw [show (9 : ℝ) = 3 ^ 2 by norm_num, Real.sqrt_sq (by norm_num : (0 : ℝ) ≤ 3)]

theorem cbPair_skip : JsNum.ltb (pairDist [demoBody, cbB] (0, 1)) (JsNum.fin 1) = false := by
  rw [cbPair_dist, JsNum.ltb_fin_fin]
  simp only [decide_eq_false_iff_not]
  norm_num

theorem cbPair_f : pairF [demoBody, cbB] demoCfg (0, 1) = JsNum.fin (1 / 9) := by
  rw [pairF, cbPair_dsq]
  have h1 : (bAt [demoBody, cbB] 0).mass = JsNum.fin 1 := rfl
  have h2 : (bAt [demoBody, cbB] 1).mass = JsNum.fin 1 := rfl
  have h3 : demoCfg.G = JsNum.fin 1 := rfl
  have h4 : demoCfg.softening = JsNum.fin 0 := rfl
  rw [h1, h2, h3, h4, JsNum.mul_fin_fin, JsNum.mul_fin_fin, JsNum.mul_fin_fin,
    JsNum.add_fin_fin]
  rw [show (9 : ℝ) + 0 * 0 = 9 by norm_num, JsNum.div_fin_fin_of_ne _ 9 (by norm_num)]
  norm_num

theorem cbPair_fx : pairFX [demoBody, cbB] demoCfg (0, 1) = JsNum.fin (1 / 9) := by
  rw [pairFX, cbPair_f, cbPair_dx, cbPair_dist,
    JsNum.div_fin_fin_of_ne 3 3 (by norm_num), JsNum.mul_fin_fin]
  norm_num

theorem cbPair_fy : pairFY [demoBody, cbB] demoCfg (0, 1) = JsNum.fin 0 := by
  rw [pairFY, cbPair_f, cbPair_dy, cbPair_dist,
    JsNum.div_fin_fin_of_ne 0 3 (by norm_num), JsNum.mul_fin_fin]
  norm_num

theorem cbPair_skip2 : ¬ JsNum.ltb (pairDist [demoBody, cbB] (0, 1)) (JsNum.fin 1) = true := by
  rw [cbPair_skip]; simp

theorem cbForces : computeForces [demoBody, cbB] demoCfg 0 = ⟨JsNum.fin (1 / 9), JsNum.fin 0⟩ ∧
    computeForces [demoBody, cbB] demoCfg 1 = ⟨JsNum.fin (-(1 / 9)), JsNum.fin 0⟩ := by
  have hcf : computeForces [demoBody, cbB] demoCfg =
      accumStep [demoBody, cbB] demoCfg (fun _ => ⟨JsNum.fin 0, JsNum.fin 0⟩) (0, 1) := rfl
  constructor
  · rw [hcf, accumStep, if_neg cbPair_skip2]
    simp only [if_true, cbPair_fx, cbPair_fy, JsNum.add_fin_fin, Vec2.mk.injEq,
      JsNum.fin.injEq]
    constructor <;> norm_num
  · rw [hcf, accumStep, if_neg cbPair_skip2]
    simp only [if_true, cbPair_fx, cbPair_fy, JsNum.sub_fin_fin, Vec2.mk.injEq,
      JsNum.fin.injEq]
    rw [if_neg (show ¬((1 : Nat) = 0) by norm_num)]
    simp only [Vec2.mk.injEq, JsNum.fin.injEq]
    constructor <;> norm_num

/-- C2 counterexample: for the concrete processed pair (0, 1) at distance 3,
the value f * Delta / r claimed for body j = 1 is fin (1/9), but the force
accumulator of body 1 after the loop is fin (-(1/9)) (the accumulator of body
i = 0 holds fin (1/9)): the claim attributes the two signs to the wrong
bodies. -/
theorem C2_counterexample :
    JsNum.mul (pairF [demoBody, cbB] demoCfg (0, 1))
      (JsNum.div (pairDX [demoBody, cbB] (0, 1)) (pairDist [demoBody, cbB] (0, 1)))
      = JsNum.fin (1 / 9) ∧
    (computeForces [demoBody, cbB] demoCfg 1).x = JsNum.fin (-(1 / 9)) ∧
    (computeForces [demoBody, cbB] demoCfg 0).x = JsNum.fin (1 / 9) ∧
    JsNum.fin (-(1 / 9)) ≠ JsNum.fin (1 / 9) := by
  refine ⟨cbPair_fx, by rw [cbForces.2], by rw [cbForces.1], ?_⟩
  simp only [ne_eq, JsNum.fin.injEq]
  norm_num

/-- C2 witness: the amended theorem applied to the concrete processed pair:
body 0 receives the pair force vector and body 1 its negation. -/
theorem C2_pairwise_force_accumulation_witness :
    pairContrib [demoBody, cbB] demoCfg (0, 1) 0 =
      ⟨pairFX [demoBody, cbB] demoCfg (0, 1), pairFY [demoBody, cbB] demoCfg (0, 1)⟩ ∧
    pairContrib [demoBody, cbB] demoCfg (0, 1) 1 =
      ⟨JsNum.neg (pairFX [demoBody, cbB] demoCfg (0, 1)),
       JsNum.neg (pairFY [demoBody, cbB] demoCfg (0, 1))⟩ :=
  ⟨(C2_pairwise_force_accumulation [demoBody, cbB] demoCfg 0 1 (by norm_num) (by simp)
      cbPair_skip).2.2.2.1,
   (C2_pairwise_force_accumulation [demoBody, cbB] demoCfg 0 1 (by norm_num) (by simp)
      cbPair_skip).2.2.2.2.1⟩

/-! The reconciliation effect of Canvas.tsx (lines 56-79). -/

/-- Lookup in the Map built by new Map(internal.map(b => [b.id, b])): when two
bodies share an id the later entry wins, hence the foldl keeping the last
match. -/
def mapGet (l : List Body) (i : String) : Option Body :=
  l.foldl (fun a b => if b.id = i then some b else a) none

/-- The reconciliation effect body: a scenario load (nonempty incoming list,
every id unseen) or an empty list replaces the internal list wholesale;
otherwise each incoming body with a known id has only mass, density, radius,
color, isFixed copied onto the existing body, and an incoming body with an
unseen id is taken as is. -/
def reconcile (internal incoming : List Body) : List Body :=
  if (decide (0 < incoming.length) &&
        incoming.all (fun b => !(mapGet internal b.id).isSome)) ||
      decide (incoming.length = 0) then incoming
  else incoming.map fun b =>
    match mapGet internal b.id with
    | some existing =>
        { existing with
            mass := b.mass
            density := b.density
            radius := b.radius
            color := b.color
            isFixed := b.isFixed }
    | none => b

theorem mapGet_acc (l : List Body) (i : String) (acc : Option Body) :
    l.foldl (fun a b => if b.id = i then some b else a) acc =
      match mapGet l i with
      | some b => some b
      | none => acc := by
  induction l generalizing acc with
  | nil => rfl
  | cons c l ih =>
    show l.foldl _ (if c.id = i then some c else acc) = _
    have hm : mapGet (c :: l) i = l.foldl (fun a b => if b.id = i then some b else a)
        (if c.id = i then some c else none) := rfl
    rw [ih, hm, ih]
    rcases h : mapGet l i with _ | b
    · by_cases hc : c.id = i <;> simp [hc]
    · rfl

theorem mapGet_eq_none (l : List Body) (i : String) (h : i ∉ l.map Body.id) :
    mapGet l i = none := by
  induction l with
  | nil => rfl
  | cons c l ih =>
    simp only [List.map_cons, List.mem_cons, not_or] at h
    have hm : mapGet (c :: l) i = l.foldl (fun a b => if b.id = i then some b else a)
        (if c.id = i then some c else none) := rfl
    rw [hm, mapGet_acc, ih h.2, if_neg (fun hc => h.1 hc.symm)]

theorem mapGet_mem_nodup (l : List Body) (b : Body) (hnodup : (l.map Body.id).Nodup)
    (hmem : b ∈ l) : mapGet l b.id = some b := by
  induction l with
  | nil => cases hmem
  | cons c l ih =>
    simp only [List.map_cons, List.nodup_cons] at hnodup
    have hm : mapGet (c :: l) b.id = l.foldl (fun a x => if x.id = b.id then some x else a)
        (if c.id = b.id then some c else none) := rfl
    rw [hm, mapGet_acc]
    rcases List.mem_cons.mp hmem with rfl | hbl
    · rw [mapGet_eq_none l b.id hnodup.1, if_pos rfl]
    · rw [ih hnodup.2 hbl]

/-- C7: the reconciliation effect replaces the internal list wholesale when
the incoming list is nonempty with only unseen ids (scenario load) or when it
is empty; otherwise (some id overlaps) each incoming body with a known id
keeps the existing body's pos, vel, trail (and id) and receives only mass,
density, radius, color, isFixed from the incoming body; feeding a list with
distinct ids to itself is the identity, in particular pos, vel and trail are
untouched. -/
theorem C7_reconciliation (internal incoming : List Body) :
    (incoming ≠ [] → (∀ b ∈ incoming, mapGet internal b.id = none) →
      reconcile internal incoming = incoming) ∧
    reconcile internal [] = [] ∧
    ((∃ b0 ∈ incoming, (mapGet internal b0.id).isSome = true) →
      ∀ (k : Nat) (b : Body), incoming[k]? = some b →
      ∀ ex, mapGet internal b.id = some ex →
        (reconcile internal incoming)[k]? = some { ex with
          mass := b.mass
          density := b.density
          radius := b.radius
          color := b.color
          isFixed := b.isFixed }) ∧
    ((incoming.map Body.id).Nodup → reconcile incoming incoming = incoming) := by
  refine ⟨?_, rfl, ?_, ?_⟩
  · intro hne hall
    have h1 : decide (0 < incoming.length) = true :=
      decide_eq_true (List.length_pos.mpr hne)
    have h2 : incoming.all (fun b => !(mapGet internal b.id).isSome) = true := by
      rw [List.all_eq_true]
      intro b hb
      rw [hall b hb]
      rfl
    rw [reconcile, if_pos (by rw [h1, h2]; rfl)]
  · intro hex k b hkb ex hxe
    obtain ⟨b0, hb0mem, hb0⟩ := hex
    have hne : incoming ≠ [] := List.ne_nil_of_mem hb0mem
    have hlen : decide (incoming.length = 0) = false := by
      simp [List.length_eq_zero, hne]
    have hall : incoming.all (fun b => !(mapGet internal b.id).isSome) = false :=
      List.all_eq_false.mpr ⟨b0, hb0mem, by rw [hb0]; simp⟩
    rw [reconcile, if_neg (by rw [hall, hlen]; simp)]
    rw [List.getElem?_map, hkb, Option.map_some']
    simp only [hxe]
  · intro hnodup
    rcases eq_or_ne incoming [] with rfl | hne
    · rfl
    · obtain ⟨b0, hb0mem⟩ := List.exists_mem_of_ne_nil incoming hne
      have hb0 : (mapGet incoming b0.id).isSome = true := by
        rw [mapGet_mem_nodup incoming b0 hnodup hb0mem]
        rfl
      have hlen : decide (incoming.length = 0) = false := by
        simp [List.length_eq_zero, hne]
      have hall : incoming.all (fun b => !(mapGet incoming b.id).isSome) = false :=
        List.all_eq_false.mpr ⟨b0, hb0mem, by rw [hb0]; simp⟩
      rw [reconcile, if_neg (by rw [hall, hlen]; simp)]
      have hcongr : ∀ b ∈ incoming,
          (match mapGet incoming b.id with
           | some existing =>
               { existing with
                 mass := b.mass
                 density := b.density
                 radius := b.radius
                 color := b.color
                 isFixed := b.isFixed }
           | none => b) = b := by
        intro b hb
        rw [mapGet_mem_nodup incoming b hnodup hb]
      rw [List.map_congr_left hcongr]
      simp

/-- An edit of demoBody: same id, larger mass. -/
noncomputable def editedBody : Body := { demoBody with mass := JsNum.fin 2 }

/-- A body with an id unseen by the internal list. -/
noncomputable def freshBody : Body := { demoBody with id := "x" }

/-- C7 witness: the theorem applied to concrete lists: a fresh-id list
replaces wholesale, an overlapping-id list merges onto the existing body, and
a list fed to itself is returned unchanged. -/
theorem C7_reconciliation_witness :
    reconcile [demoBody] [freshBody] = [freshBody] ∧
    (reconcile [demoBody] [editedBody])[0]? = some { demoBody with
      mass := editedBody.mass
      density := editedBody.density
      radius := editedBody.radius
      color := editedBody.color
      isFixed := editedBody.isFixed } ∧
    reconcile [demoBody] [demoBody] = [demoBody] := by
  refine ⟨?_, ?_, ?_⟩
  · refine (C7_reconciliation [demoBody] [freshBody]).1 (by simp) ?_
    intro b hb
    rw [List.mem_singleton] at hb
    subst hb
    rfl
  · exact (C7_reconciliation [demoBody] [editedBody]).2.2.1
      ⟨editedBody, by simp, rfl⟩ 0 editedBody rfl demoBody rfl
  · exact (C7_reconciliation [demoBody] [demoBody]).2.2.2 (by simp)

/-- C10: during a property-edit reconciliation (at least one incoming id is
known), an incoming body whose id is not in the internal list is adopted
verbatim at its position: its supplied pos, vel and trail become the internal
state unchanged. -/
theorem C10_property_edit_adopts_new (internal incoming : List Body)
    (hex : ∃ b0 ∈ incoming, (mapGet internal b0.id).isSome = true)
    (k : Nat) (b : Body) (hkb : incoming[k]? = some b)
    (hnone : mapGet internal b.id = none) :
    (reconcile internal incoming)[k]? = some b := by
  obtain ⟨b0, hb0mem, hb0⟩ := hex
  have hne : incoming ≠ [] := List.ne_nil_of_mem hb0mem
  have hlen : decide (incoming.length = 0) = false := by
    simp [List.length_eq_zero, hne]
  have hall : incoming.all (fun b => !(mapGet internal b.id).isSome) = false :=
    List.all_eq_false.mpr ⟨b0, hb0mem, by rw [hb0]; simp⟩
  rw [reconcile, if_neg (by rw [hall, hlen]; simp)]
  rw [List.getElem?_map, hkb, Option.map_some']
  simp only [hnone]

/-- C10 witness: the theorem applied to a concrete property edit carrying one
known id and one new body: the new body enters as supplied. -/
theorem C10_property_edit_adopts_new_witness :
    (reconcile [demoBody] [editedBody, freshBody])[1]? = some freshBody :=
  C10_property_edit_adopts_new [demoBody] [editedBody, freshBody]
    ⟨editedBody, by simp, rfl⟩ 1 freshBody rfl rfl

/-! The viewport model and the zoom gestures of Canvas.tsx. -/

/-- Model of the Viewport record of types.ts (offset in screen pixels, zoom
scale), over exact reals. -/
structure Viewport where
  offset : ℝ × ℝ
  zoom : ℝ

/-- MIN_ZOOM of constants.ts. -/
noncomputable def MIN_ZOOM : ℝ := 0.1

/-- MAX_ZOOM of constants.ts. -/
noncomputable def MAX_ZOOM : ℝ := 5.0

/-- handleWheel of Canvas.tsx, lines 538-542: an additive zoom change clamped
to the literals 0.05 and 10, with the offset left untouched. -/
noncomputable def handleWheel (v : Viewport) (deltaY : ℝ) : Viewport :=
  { v with zoom := max 0.05 (min 10 (v.zoom - deltaY * 0.001)) }

/-- The setViewport update of handleTouchMove for a two-finger move
(Canvas.tsx lines 480-512): given the previous pinch distance and center held
in the refs and the current distance and midpoint (cx, cy), scale the zoom by
the distance ratio, clamp it to MIN_ZOOM and MAX_ZOOM, and recompute the
offset so that the world point under the previous center lands under the
current center.  When the recorded distance is not positive the update is
skipped. -/
noncomputable def pinchUpdate (v : Viewport) (lastDist : ℝ) (lastCenter : ℝ × ℝ)
    (dist cx cy : ℝ) : Viewport :=
  if lastDist > 0 then
    { zoom := max MIN_ZOOM (min MAX_ZOOM (v.zoom * (dist / lastDist)))
      offset := (cx - (lastCenter.1 - v.offset.1) / v.zoom *
          (max MIN_ZOOM (min MAX_ZOOM (v.zoom * (dist / lastDist)))),
        cy - (lastCenter.2 - v.offset.2) / v.zoom *
          (max MIN_ZOOM (min MAX_ZOOM (v.zoom * (dist / lastDist))))) }
  else v

/-- C8 counterexample: a wheel event from zoom = MAX_ZOOM = 5 with
deltaY = -1000 produces zoom = 6, outside [MIN_ZOOM, MAX_ZOOM]: the wheel
handler is neither multiplicative-clamped to those bounds nor
anchor-preserving. -/
theorem C8_counterexample :
    (handleWheel ⟨(0, 0), 5⟩ (-1000)).zoom = 6 ∧
    MAX_ZOOM = 5 ∧
    ¬ (handleWheel ⟨(0, 0), 5⟩ (-1000)).zoom ≤ MAX_ZOOM := by
  have h : (handleWheel ⟨(0, 0), 5⟩ (-1000)).zoom = 6 := by
    show max 0.05 (min 10 ((5 : ℝ) - (-1000) * 0.001)) = 6
    rw [show (5 : ℝ) - (-1000) * 0.001 = 6 by norm_num,
      min_eq_right (by norm_num : (6 : ℝ) ≤ 10),
      max_eq_right (by norm_num : (0.05 : ℝ) ≤ 6)]
  refine ⟨h, by rw [MAX_ZOOM]; norm_num, ?_⟩
  rw [h, MAX_ZOOM]
  norm_num

/-- C8 amended: the pinch gesture performs the anchor-preserving zoomAt: the
new zoom is clamp(zoom * (dist / lastDist), MIN_ZOOM, MAX_ZOOM), it always
lies in [MIN_ZOOM, MAX_ZOOM], and the world point that was under the previous
pinch center is mapped by the new viewport (screen = world * zoom + offset)
exactly onto the current center.  The wheel handler instead changes the zoom
additively by -deltaY * 0.001 clamped to the literal range [0.05, 10] and
leaves the offset unchanged, so its result is only guaranteed to lie in
[0.05, 10]. -/
theorem C8_zoom_behaviour (v : Viewport) (lastDist : ℝ) (lastCenter : ℝ × ℝ)
    (dist cx cy deltaY : ℝ) (hpos : lastDist > 0) :
    (pinchUpdate v lastDist lastCenter dist cx cy).zoom =
      max MIN_ZOOM (min MAX_ZOOM (v.zoom * (dist / lastDist))) ∧
    MIN_ZOOM ≤ (pinchUpdate v lastDist lastCenter dist cx cy).zoom ∧
    (pinchUpdate v lastDist lastCenter dist cx cy).zoom ≤ MAX_ZOOM ∧
    ((lastCenter.1 - v.offset.1) / v.zoom) *
        (pinchUpdate v lastDist lastCenter dist cx cy).zoom +
      (pinchUpdate v lastDist lastCenter dist cx cy).offset.1 = cx ∧
    ((lastCenter.2 - v.offset.2) / v.zoom) *
        (pinchUpdate v lastDist lastCenter dist cx cy).zoom +
      (pinchUpdate v lastDist lastCenter dist cx cy).offset.2 = cy ∧
    (handleWheel v deltaY).offset = v.offset ∧
    (handleWheel v deltaY).zoom = max 0.05 (min 10 (v.zoom - deltaY * 0.001)) ∧
    0.05 ≤ (handleWheel v deltaY).zoom ∧
    (handleWheel v deltaY).zoom ≤ 10 := by
  rw [pinchUpdate, if_pos hpos]
  refine ⟨rfl, le_max_left _ _, ?_, by ring, by ring, rfl, rfl, le_max_left _ _, ?_⟩
  · exact max_le (by rw [MIN_ZOOM, MAX_ZOOM]; norm_num) (min_le_left _ _)
  · exact max_le (by norm_num) (min_le_left _ _)

/-- C8 witness: the amended theorem applied to a concrete pinch: previous
distance 100, current distance 200 from zoom 1. -/
theorem C8_zoom_behaviour_witness :
    (pinchUpdate ⟨(0, 0), 1⟩ 100 (50, 40) 200 80 90).zoom =
      max MIN_ZOOM (min MAX_ZOOM (1 * (200 / 100))) ∧
    MIN_ZOOM ≤ (pinchUpdate ⟨(0, 0), 1⟩ 100 (50, 40) 200 80 90).zoom ∧
    (pinchUpdate ⟨(0, 0), 1⟩ 100 (50, 40) 200 80 90).zoom ≤ MAX_ZOOM ∧
    ((50 - 0) / 1) * (pinchUpdate ⟨(0, 0), 1⟩ 100 (50, 40) 200 80 90).zoom +
      (pinchUpdate ⟨(0, 0), 1⟩ 100 (50, 40) 200 80 90).offset.1 = 80 := by
  obtain ⟨h1, h2, h3, h4, _⟩ :=
    C8_zoom_behaviour ⟨(0, 0), 1⟩ 100 (50, 40) 200 80 90 0 (by norm_num)
  exact ⟨h1, h2, h3, h4⟩

/-! The body property editors of Controls.tsx. -/

/-- The radius consistency invariant: radius = Math.max(3, Math.sqrt(mass /
density)). -/
noncomputable def radiusInv (b : Body) : Prop :=
  b.radius = JsNum.maxJ (JsNum.fin 3) (JsNum.sqrt (JsNum.div b.mass b.density))

/-- updateSelectedBodyMass of Controls.tsx, lines 45-64: NaN input falls back
to 1, the mass is clamped to [0.1, 1000000], and the radius is recomputed from
the clamped mass and b.density || 1. -/
noncomputable def updateSelectedBodyMass (selectedBodyId : Option String)
    (newMass : JsNum) (prev : List Body) : List Body :=
  match selectedBodyId with
  | none => prev
  | some sid =>
      prev.map fun b =>
        if b.id = sid then
          { b with
            mass := JsNum.maxJ (JsNum.fin 0.1) (JsNum.minJ (JsNum.fin 1000000)
              (if JsNum.isNaNb newMass then JsNum.fin 1 else newMass))
            radius := JsNum.maxJ (JsNum.fin 3) (JsNum.sqrt (JsNum.div
              (JsNum.maxJ (JsNum.fin 0.1) (JsNum.minJ (JsNum.fin 1000000)
                (if JsNum.isNaNb newMass then JsNum.fin 1 else newMass)))
              (if JsNum.truthy b.density then b.density else JsNum.fin 1))) }
        else b

/-- updateSelectedBodyDensity of Controls.tsx, lines 66-82: the density is
clamped to [0.1, 20] and the radius is recomputed from b.mass and the clamped
density. -/
noncomputable def updateSelectedBodyDensity (selectedBodyId : Option String)
    (newDensity : JsNum) (prev : List Body) : List Body :=
  match selectedBodyId with
  | none => prev
  | some sid =>
      prev.map fun b =>
        if b.id = sid then
          { b with
            density := JsNum.maxJ (JsNum.fin 0.1) (JsNum.minJ (JsNum.fin 20) newDensity)
            radius := JsNum.maxJ (JsNum.fin 3) (JsNum.sqrt (JsNum.div b.mass
              (JsNum.maxJ (JsNum.fin 0.1) (JsNum.minJ (JsNum.fin 20) newDensity)))) }
        else b

/-- C9: the constructor establishes radius = max(3, sqrt(mass / density)),
and both property editors reestablish it for every body of the resulting
list (the mass editor needs the density to be truthy, i.e. nonzero and not
NaN, because it reads b.density || 1 while leaving the stored density
unchanged; the spec guarantees density > 0). -/
theorem C9_radius_consistency :
    (∀ (id : String) (pos vel : Vec2) (mass : JsNum) (color : String)
      (isFixed : Bool) (density : JsNum),
      radiusInv (createBody id pos vel mass color isFixed density)) ∧
    (∀ (sid : Option String) (newMass : JsNum) (prev : List Body) (b' : Body),
      b' ∈ updateSelectedBodyMass sid newMass prev →
      (∀ b ∈ prev, radiusInv b ∧ JsNum.truthy b.density = true) → radiusInv b') ∧
    (∀ (sid : Option String) (newDensity : JsNum) (prev : List Body) (b' : Body),
      b' ∈ updateSelectedBodyDensity sid newDensity prev →
      (∀ b ∈ prev, radiusInv b) → radiusInv b') := by
  refine ⟨fun _ _ _ _ _ _ _ => rfl, ?_, ?_⟩
  · intro sid newMass prev b' hb' hprev
    cases sid with
    | none => exact (hprev b' hb').1
    | some s =>
      rcases List.mem_map.mp hb' with ⟨b, hb, rfl⟩
      by_cases hid : b.id = s
      · rw [if_pos hid]
        have htr := (hprev b hb).2
        simp [radiusInv, htr]
      · rw [if_neg hid]
        exact (hprev b hb).1
  · intro sid newDensity prev b' hb' hprev
    cases sid with
    | none => exact hprev b' hb'
    | some s =>
      rcases List.mem_map.mp hb' with ⟨b, hb, rfl⟩
      by_cases hid : b.id = s
      · rw [if_pos hid]
        exact rfl
      · rw [if_neg hid]
        exact hprev b hb

/-- C9 witness: the theorem applied to a concrete construction and a concrete
mass edit of demoBody (whose density 1 is truthy and whose radius satisfies
the invariant). -/
theorem C9_radius_consistency_witness :
    radiusInv (createBody "w" ⟨JsNum.fin 0, JsNum.fin 0⟩ ⟨JsNum.fin 0, JsNum.fin 0⟩
      (JsNum.fin 4) "c" false (JsNum.fin 1)) ∧
    ∀ b' ∈ updateSelectedBodyMass (some "a") (JsNum.fin 2) [demoBody], radiusInv b' := by
  constructor
  · exact C9_radius_consistency.1 "w" ⟨JsNum.fin 0, JsNum.fin 0⟩ ⟨JsNum.fin 0, JsNum.fin 0⟩
      (JsNum.fin 4) "c" false (JsNum.fin 1)
  · intro b' hb'
    refine C9_radius_consistency.2.1 (some "a") (JsNum.fin 2) [demoBody] b' hb' ?_
    intro b hb
    rw [List.mem_singleton] at hb
    subst hb
    constructor
    · show JsNum.fin 3 =
        JsNum.maxJ (JsNum.fin 3) (JsNum.sqrt (JsNum.div (JsNum.fin 1) (JsNum.fin 1)))
      rw [JsNum.div_fin_fin_of_ne 1 1 (by norm_num), show (1 : ℝ) / 1 = 1 by norm_num,
        JsNum.sqrt_fin_of_nonneg 1 (by norm_num), Real.sqrt_one, JsNum.maxJ_fin_fin,
        max_eq_left (by norm_num : (1 : ℝ) ≤ 3)]
    · show JsNum.truthy (JsNum.fin 1) = true
      rw [JsNum.truthy]
      simp

/-! Overflow-aware JS arithmetic.  IEEE-754 double arithmetic rounds every
exact finite result whose magnitude is at least (2 - 2^-53) * 2^1023
= 2^1024 - 2^970 to the Infinity of its sign.  The ovf wrapper applies this
threshold to the exact result of a base operation; magnitudes below the
threshold are kept exact (the rounding of representable values is not
modelled, only the overflow to Infinity). -/

/-- The smallest positive real that IEEE-754 round-to-nearest-even maps to
Infinity: (2 - 2^-53) * 2^1023 = 2^1024 - 2^970. -/
noncomputable def ovfThreshold : ℝ := 2 ^ 1024 - 2 ^ 970

/-- Overflow of a finite value past the IEEE threshold to the Infinity of its
sign; special values pass through. -/
noncomputable def JsNum.ovf : JsNum → JsNum
  | JsNum.fin x =>
      if ovfThreshold ≤ x then JsNum.inf
      else if x ≤ -ovfThreshold then JsNum.ninf
      else JsNum.fin x
  | a => a

/-- Overflow-aware addition: one IEEE add. -/
noncomputable def addOv (a b : JsNum) : JsNum := JsNum.ovf (JsNum.add a b)

/-- Overflow-aware subtraction: one IEEE subtract. -/
noncomputable def subOv (a b : JsNum) : JsNum := JsNum.ovf (JsNum.sub a b)

/-- Overflow-aware multiplication: one IEEE multiply. -/
noncomputable def mulOv (a b : JsNum) : JsNum := JsNum.ovf (JsNum.mul a b)

/-- Overflow-aware division: one IEEE divide. -/
noncomputable def divOv (a b : JsNum) : JsNum := JsNum.ovf (JsNum.div a b)

/-! The overflow-aware embedding of updatePhysics, definition for definition
the same as the exact one, with every arithmetic operation of the source
routed through the overflow check (Math.sqrt of a finite value never reaches
the threshold, so sqrt needs no wrapper). -/

noncomputable section

/-- dx = b2.pos.x - b1.pos.x, overflow-aware. -/
def pairDXOv (bodies : List Body) (p : Nat × Nat) : JsNum :=
  subOv (bAt bodies p.2).pos.x (bAt bodies p.1).pos.x

/-- dy = b2.pos.y - b1.pos.y, overflow-aware. -/
def pairDYOv (bodies : List Body) (p : Nat × Nat) : JsNum :=
  subOv (bAt bodies p.2).pos.y (bAt bodies p.1).pos.y

/-- distSq = dx * dx + dy * dy, overflow-aware. -/
def pairDistSqOv (bodies : List Body) (p : Nat × Nat) : JsNum :=
  addOv (mulOv (pairDXOv bodies p) (pairDXOv bodies p))
    (mulOv (pairDYOv bodies p) (pairDYOv bodies p))

/-- dist = Math.sqrt(distSq), overflow-aware pipeline. -/
def pairDistOv (bodies : List Body) (p : Nat × Nat) : JsNum :=
  JsNum.sqrt (pairDistSqOv bodies p)

/-- f = (config.G * b1.mass * b2.mass) / (distSq + softening * softening),
overflow-aware. -/
def pairFOv (bodies : List Body) (cfg : SimulationConfig) (p : Nat × Nat) : JsNum :=
  divOv (mulOv (mulOv cfg.G (bAt bodies p.1).mass) (bAt bodies p.2).mass)
    (addOv (pairDistSqOv bodies p) (mulOv cfg.softening cfg.softening))

/-- fx = f * (dx / dist), overflow-aware. -/
def pairFXOv (bodies : List Body) (cfg : SimulationConfig) (p : Nat × Nat) : JsNum :=
  mulOv (pairFOv bodies cfg p) (divOv (pairDXOv bodies p) (pairDistOv bodies p))

/-- fy = f * (dy / dist), overflow-aware. -/
def pairFYOv (bodies : List Body) (cfg : SimulationConfig) (p : Nat × Nat) : JsNum :=
  mulOv (pairFOv bodies cfg p) (divOv (pairDYOv bodies p) (pairDistOv bodies p))

/-- One iteration of the force loop, overflow-aware. -/
def accumStepOv (bodies : List Body) (cfg : SimulationConfig) (F : Nat → Vec2)
    (p : Nat × Nat) : Nat → Vec2 :=
  if JsNum.ltb (pairDistOv bodies p) (JsNum.fin 1) then F
  else fun k =>
    if k = p.1 then
      ⟨addOv (F k).x (pairFXOv bodies cfg p), addOv (F k).y (pairFYOv bodies cfg p)⟩
    else if k = p.2 then
      ⟨subOv (F k).x (pairFXOv bodies cfg p), subOv (F k).y (pairFYOv bodies cfg p)⟩
    else F k

/-- The zero-initialised force accumulation over every pair, overflow-aware. -/
def computeForcesOv (bodies : List Body) (cfg : SimulationConfig) : Nat → Vec2 :=
  (pairIdx bodies.length).foldl (accumStepOv bodies cfg) fun _ => ⟨JsNum.fin 0, JsNum.fin 0⟩

/-- newVel of updatePhysics, overflow-aware. -/
def newVelOfOv (cfg : SimulationConfig) (dt : JsNum) (F : Vec2) (b : Body) : Vec2 :=
  ⟨addOv b.vel.x (mulOv (mulOv (divOv F.x b.mass) dt) cfg.timeScale),
   addOv b.vel.y (mulOv (mulOv (divOv F.y b.mass) dt) cfg.timeScale)⟩

/-- newPos of updatePhysics, overflow-aware. -/
def newPosOfOv (cfg : SimulationConfig) (dt : JsNum) (F : Vec2) (b : Body) : Vec2 :=
  ⟨addOv b.pos.x (mulOv (mulOv (newVelOfOv cfg dt F b).x dt) cfg.timeScale),
   addOv b.pos.y (mulOv (mulOv (newVelOfOv cfg dt F b).y dt) cfg.timeScale)⟩

/-- The isNaN safety check of updatePhysics, overflow-aware pipeline. -/
def nanGuardOv (cfg : SimulationConfig) (dt : JsNum) (F : Vec2) (b : Body) : Bool :=
  JsNum.isNaNb (newPosOfOv cfg dt F b).x || JsNum.isNaNb (newPosOfOv cfg dt F b).y ||
    JsNum.isNaNb (newVelOfOv cfg dt F b).x || JsNum.isNaNb (newVelOfOv cfg dt F b).y

/-- The trail update of updatePhysics, overflow-aware arithmetic. -/
def trailStepOv (trailLength : Nat) (trail : List Vec2) (newPos : Vec2) : List Vec2 :=
  let distSq :=
    match trail.getLast? with
    | some lastPoint =>
        addOv
          (mulOv (subOv newPos.x lastPoint.x) (subOv newPos.x lastPoint.x))
          (mulOv (subOv newPos.y lastPoint.y) (subOv newPos.y lastPoint.y))
    | none => JsNum.fin 999
  if JsNum.ltb (JsNum.fin 10) distSq then
    let t := trail ++ [newPos]
    if trailLength < t.length then t.drop (t.length - trailLength) else t
  else trail

/-- The per-body update of updatePhysics, overflow-aware. -/
def integrateBodyOv (cfg : SimulationConfig) (dt : JsNum) (F : Vec2) (b : Body) : Body :=
  if b.isFixed then b
  else if nanGuardOv cfg dt F b then b
  else
    { b with
      pos := newPosOfOv cfg dt F b
      vel := newVelOfOv cfg dt F b
      trail := trailStepOv cfg.trailLength b.trail (newPosOfOv cfg dt F b) }

/-- updatePhysics of physicsEngine.ts over the overflow-aware arithmetic. -/
def updatePhysicsOv (bodies : List Body) (cfg : SimulationConfig) (dt : JsNum) : List Body :=
  if bodies.length = 0 then bodies
  else (List.range bodies.length).map fun i =>
    integrateBodyOv cfg dt (computeForcesOv bodies cfg i) (bAt bodies i)

/-- Both components of a vector are not NaN (they may be infinite). -/
def vecNoNaNb (v : Vec2) : Bool := !JsNum.isNaNb v.x && !JsNum.isNaNb v.y

/-- No numeric component of a body is NaN. -/
def bodyNoNaNb (b : Body) : Bool :=
  vecNoNaNb b.pos && vecNoNaNb b.vel && !JsNum.isNaNb b.mass &&
    !JsNum.isNaNb b.density && !JsNum.isNaNb b.radius && b.trail.all vecNoNaNb

end

theorem JsNum.ovf_fin_small (x : ℝ) (h1 : x < ovfThreshold) (h2 : -ovfThreshold < x) :
    JsNum.ovf (JsNum.fin x) = JsNum.fin x := by
  simp only [JsNum.ovf]
  rw [if_neg (not_le.mpr h1), if_neg (not_le.mpr h2)]

theorem JsNum.ovf_fin_overflow (x : ℝ) (h : ovfThreshold ≤ x) :
    JsNum.ovf (JsNum.fin x) = JsNum.inf := by
  simp only [JsNum.ovf]
  rw [if_pos h]

theorem JsNum.ovf_inf : JsNum.ovf JsNum.inf = JsNum.inf := rfl

theorem ovfThreshold_pos : (0 : ℝ) < ovfThreshold := by
  rw [ovfThreshold]; norm_num

theorem ovf_fin_zero : JsNum.ovf (JsNum.fin 0) = JsNum.fin 0 :=
  JsNum.ovf_fin_small 0 ovfThreshold_pos (by linarith [ovfThreshold_pos])

theorem ovf_fin_pow1000 : JsNum.ovf (JsNum.fin (2 ^ 1000)) = JsNum.fin (2 ^ 1000) :=
  JsNum.ovf_fin_small (2 ^ 1000) (by rw [ovfThreshold]; norm_num)
    (by nlinarith [ovfThreshold_pos, pow_pos (by norm_num : (0:ℝ) < 2) 1000])

theorem ovf_fin_pow1100 : JsNum.ovf (JsNum.fin (2 ^ 1100)) = JsNum.inf :=
  JsNum.ovf_fin_overflow (2 ^ 1100) (by rw [ovfThreshold]; norm_num)

theorem trailStepOv_all_noNaN (tl : Nat) (trail : List Vec2) (np : Vec2)
    (ht : ∀ q ∈ trail, vecNoNaNb q = true) (hnp : vecNoNaNb np = true) :
    ∀ q ∈ trailStepOv tl trail np, vecNoNaNb q = true := by
  intro q hq
  unfold trailStepOv at hq
  by_cases hthr : JsNum.ltb (JsNum.fin 10)
      (match trail.getLast? with
       | some lastPoint =>
           addOv
             (mulOv (subOv np.x lastPoint.x) (subOv np.x lastPoint.x))
             (mulOv (subOv np.y lastPoint.y) (subOv np.y lastPoint.y))
       | none => JsNum.fin 999) = true
  · rw [if_pos hthr] at hq
    by_cases hlen : tl < (trail ++ [np]).length
    · rw [if_pos hlen] at hq
      have hq2 : q ∈ trail ++ [np] := List.mem_of_mem_drop hq
      rcases List.mem_append.mp hq2 with hql | hqr
      · exact ht q hql
      · rw [List.mem_singleton.mp hqr]; exact hnp
    · rw [if_neg hlen] at hq
      rcases List.mem_append.mp hq with hql | hqr
      · exact ht q hql
      · rw [List.mem_singleton.mp hqr]; exact hnp
  · rw [if_neg hthr] at hq
    exact ht q hq

theorem integrateBodyOv_noNaN (cfg : SimulationConfig) (dt : JsNum) (F : Vec2) (b : Body)
    (hb : bodyNoNaNb b = true) : bodyNoNaNb (integrateBodyOv cfg dt F b) = true := by
  by_cases hfix : b.isFixed = true
  · rw [integrateBodyOv, if_pos hfix]; exact hb
  · by_cases hg : nanGuardOv cfg dt F b = true
    · rw [integrateBodyOv, if_neg hfix, if_pos hg]; exact hb
    · have hguard : nanGuardOv cfg dt F b = false := (Bool.not_eq_true _).mp hg
      rw [nanGuardOv, Bool.or_eq_false_iff, Bool.or_eq_false_iff, Bool.or_eq_false_iff]
        at hguard
      obtain ⟨⟨⟨hpx, hpy⟩, hvx⟩, hvy⟩ := hguard
      rw [integrateBodyOv, if_neg hfix, if_neg hg]
      rw [bodyNoNaNb] at hb
      simp only [Bool.and_eq_true, List.all_eq_true] at hb
      obtain ⟨⟨⟨⟨⟨hbp, hbv⟩, hbm⟩, hbd⟩, hbr⟩, hbt⟩ := hb
      have hPnn : vecNoNaNb (newPosOfOv cfg dt F b) = true := by
        rw [vecNoNaNb, hpx, hpy]; rfl
      have hVnn : vecNoNaNb (newVelOfOv cfg dt F b) = true := by
        rw [vecNoNaNb, hvx, hvy]; rfl
      simp only [bodyNoNaNb, Bool.and_eq_true, List.all_eq_true]
      exact ⟨⟨⟨⟨⟨hPnn, hVnn⟩, hbm⟩, hbd⟩, hbr⟩,
        fun q hq => trailStepOv_all_noNaN cfg.trailLength b.trail _ hbt hPnn q hq⟩

theorem updatePhysicsOv_getElem? (bodies : List Body) (cfg : SimulationConfig) (dt : JsNum)
    (i : Nat) (h : i < bodies.length) :
    (updatePhysicsOv bodies cfg dt)[i]? =
      some (integrateBodyOv cfg dt (computeForcesOv bodies cfg i) (bAt bodies i)) := by
  unfold updatePhysicsOv
  have h0 : ¬ bodies.length = 0 := Nat.ne_of_gt (Nat.lt_of_le_of_lt (Nat.zero_le _) h)
  simp [h0, List.getElem?_map, List.getElem?_range, h]

/-- Configuration with a large but finite time scale 2^100. -/
noncomputable def ovCfg : SimulationConfig := { demoCfg with timeScale := JsNum.fin (2 ^ 100) }

/-- A body with the large but finite velocity 2^1000 in x, at the origin. -/
noncomputable def ovFast : Body :=
  { demoBody with id := "of", vel := ⟨JsNum.fin (2 ^ 1000), JsNum.fin 0⟩ }

theorem ovPair_dist : pairDistOv [ovFast, demoBody2] (0, 1) = JsNum.fin 0 := by
  have hdx : pairDXOv [ovFast, demoBody2] (0, 1) = JsNum.fin 0 := by
    show subOv (JsNum.fin 0) (JsNum.fin 0) = JsNum.fin 0
    rw [subOv, JsNum.sub_fin_fin, show (0 : ℝ) + -0 = 0 by norm_num, ovf_fin_zero]
  have hdy : pairDYOv [ovFast, demoBody2] (0, 1) = JsNum.fin 0 := by
    show subOv (JsNum.fin 0) (JsNum.fin 0) = JsNum.fin 0
    rw [subOv, JsNum.sub_fin_fin, show (0 : ℝ) + -0 = 0 by norm_num, ovf_fin_zero]
  have hdsq : pairDistSqOv [ovFast, demoBody2] (0, 1) = JsNum.fin 0 := by
    rw [pairDistSqOv, hdx, hdy, mulOv, JsNum.mul_fin_fin,
      show (0 : ℝ) * 0 = 0 by norm_num, ovf_fin_zero, addOv, JsNum.add_fin_fin,
      show (0 : ℝ) + 0 = 0 by norm_num, ovf_fin_zero]
  rw [pairDistOv, hdsq, JsNum.sqrt_fin_of_nonneg 0 le_rfl, Real.sqrt_zero]

theorem ovPair_skip :
    JsNum.ltb (pairDistOv [ovFast, demoBody2] (0, 1)) (JsNum.fin 1) = true := by
  rw [ovPair_dist, JsNum.ltb_fin_fin]
  simp only [decide_eq_true_eq]
  norm_num

theorem ovForces : computeForcesOv [ovFast, demoBody2] ovCfg =
    fun _ => ⟨JsNum.fin 0, JsNum.fin 0⟩ := by
  have hcf : computeForcesOv [ovFast, demoBody2] ovCfg =
      accumStepOv [ovFast, demoBody2] ovCfg (fun _ => ⟨JsNum.fin 0, JsNum.fin 0⟩) (0, 1) :=
    rfl
  rw [hcf]
  simp [accumStepOv, ovPair_skip]

theorem ovVel :
    newVelOfOv ovCfg (JsNum.fin 1) ⟨JsNum.fin 0, JsNum.fin 0⟩ ovFast =
      ⟨JsNum.fin (2 ^ 1000), JsNum.fin 0⟩ := by
  have hax : divOv (JsNum.fin 0) ovFast.mass = JsNum.fin 0 := by
    show divOv (JsNum.fin 0) (JsNum.fin 1) = JsNum.fin 0
    rw [divOv, JsNum.div_fin_fin_of_ne 0 1 (by norm_num),
      show (0 : ℝ) / 1 = 0 by norm_num, ovf_fin_zero]
  have h01 : mulOv (JsNum.fin 0) (JsNum.fin 1) = JsNum.fin 0 := by
    rw [mulOv, JsNum.mul_fin_fin, show (0 : ℝ) * 1 = 0 by norm_num, ovf_fin_zero]
  have hzz : mulOv (mulOv (JsNum.fin 0) (JsNum.fin 1)) ovCfg.timeScale = JsNum.fin 0 := by
    show mulOv (mulOv (JsNum.fin 0) (JsNum.fin 1)) (JsNum.fin (2 ^ 100)) = JsNum.fin 0
    rw [h01, mulOv, JsNum.mul_fin_fin, show (0 : ℝ) * 2 ^ 100 = 0 by norm_num, ovf_fin_zero]
  rw [newVelOfOv]
  rw [show (⟨JsNum.fin 0, JsNum.fin 0⟩ : Vec2).x = JsNum.fin 0 from rfl,
    show (⟨JsNum.fin 0, JsNum.fin 0⟩ : Vec2).y = JsNum.fin 0 from rfl, hax, hzz]
  rw [show ovFast.vel.x = JsNum.fin (2 ^ 1000) from rfl,
    show ovFast.vel.y = JsNum.fin 0 from rfl]
  rw [addOv, JsNum.add_fin_fin, show (2 : ℝ) ^ 1000 + 0 = 2 ^ 1000 by norm_num,
    ovf_fin_pow1000, addOv, JsNum.add_fin_fin, show (0 : ℝ) + 0 = 0 by norm_num,
    ovf_fin_zero]

theorem ovPos :
    newPosOfOv ovCfg (JsNum.fin 1) ⟨JsNum.fin 0, JsNum.fin 0⟩ ovFast =
      ⟨JsNum.inf, JsNum.fin 0⟩ := by
  have hbig1 : mulOv (JsNum.fin (2 ^ 1000)) (JsNum.fin 1) = JsNum.fin (2 ^ 1000) := by
    rw [mulOv, JsNum.mul_fin_fin, show (2 : ℝ) ^ 1000 * 1 = 2 ^ 1000 by norm_num,
      ovf_fin_pow1000]
  have hbig2 : mulOv (JsNum.fin (2 ^ 1000)) (JsNum.fin (2 ^ 100)) = JsNum.inf := by
    rw [mulOv, JsNum.mul_fin_fin,
      show (2 : ℝ) ^ 1000 * 2 ^ 100 = 2 ^ 1100 by rw [← pow_add], ovf_fin_pow1100]
  have h01 : mulOv (JsNum.fin 0) (JsNum.fin 1) = JsNum.fin 0 := by
    rw [mulOv, JsNum.mul_fin_fin, show (0 : ℝ) * 1 = 0 by norm_num, ovf_fin_zero]
  have h0t : mulOv (JsNum.fin 0) (JsNum.fin (2 ^ 100)) = JsNum.fin 0 := by
    rw [mulOv, JsNum.mul_fin_fin, show (0 : ℝ) * 2 ^ 100 = 0 by norm_num, ovf_fin_zero]
  rw [newPosOfOv, ovVel]
  rw [show (⟨JsNum.fin (2 ^ 1000), JsNum.fin 0⟩ : Vec2).x = JsNum.fin (2 ^ 1000) from rfl,
    show (⟨JsNum.fin (2 ^ 1000), JsNum.fin 0⟩ : Vec2).y = JsNum.fin 0 from rfl]
  rw [show ovFast.pos.x = JsNum.fin 0 from rfl, show ovFast.pos.y = JsNum.fin 0 from rfl,
    show ovCfg.timeScale = JsNum.fin (2 ^ 100) from rfl]
  rw [hbig1, hbig2, h01, h0t]
  rw [show addOv (JsNum.fin 0) JsNum.inf = JsNum.inf from rfl,
    addOv, JsNum.add_fin_fin, show (0 : ℝ) + 0 = 0 by norm_num, ovf_fin_zero]

/-- C6 counterexample: a two-body list whose only pair is coincident (r = 0)
and whose every input component is finite, on which one overflow-aware
integration step returns an Infinity position component: the velocity 2^1000
times the time scale 2^100 overflows the IEEE threshold to Infinity, and the
isNaN-only safety check writes it back.  So finite inputs containing an r = 0
pair can produce Inf in the returned list, refuting the no-NaN-or-Inf part of
the claim. -/
theorem C6_counterexample :
    bodyFiniteb ovFast = true ∧ bodyFiniteb demoBody2 = true ∧
    cfgFiniteb ovCfg = true ∧ JsNum.isFiniteb (JsNum.fin 1) = true ∧
    JsNum.ltb (pairDistOv [ovFast, demoBody2] (0, 1)) (JsNum.fin 1) = true ∧
    (((updatePhysicsOv [ovFast, demoBody2] ovCfg (JsNum.fin 1))[0]?.getD default).pos).x
      = JsNum.inf ∧
    JsNum.isFiniteb JsNum.inf = false := by
  refine ⟨by simp [bodyFiniteb, vecFiniteb, ovFast, demoBody],
    by simp [bodyFiniteb, vecFiniteb, demoBody2, demoBody],
    by simp [cfgFiniteb, ovCfg, demoCfg], rfl, ovPair_skip, ?_, rfl⟩
  rw [updatePhysicsOv_getElem? [ovFast, demoBody2] ovCfg (JsNum.fin 1) 0 (by simp)]
  have hbAt : bAt [ovFast, demoBody2] 0 = ovFast := rfl
  have hF : computeForcesOv [ovFast, demoBody2] ovCfg 0 = ⟨JsNum.fin 0, JsNum.fin 0⟩ := by
    rw [ovForces]
  rw [hbAt, hF]
  have hguard : nanGuardOv ovCfg (JsNum.fin 1) ⟨JsNum.fin 0, JsNum.fin 0⟩ ovFast
      = false := by
    rw [nanGuardOv, ovPos, ovVel]
    rfl
  have hfix : ovFast.isFixed = false := rfl
  rw [integrateBodyOv, if_neg (by rw [hfix]; simp), if_neg (by rw [hguard]; simp)]
  show (newPosOfOv ovCfg (JsNum.fin 1) ⟨JsNum.fin 0, JsNum.fin 0⟩ ovFast).x = JsNum.inf
  rw [ovPos]

/-- C6 amended: a pair whose guard dist < 1.0 fires (which includes every pair
of bodies at real distance below 1, in particular two coincident bodies) is
skipped by the force loop before any division, leaving the accumulator
unchanged; and one overflow-aware updatePhysics call on NaN-free inputs
returns a list with no NaN anywhere (the isNaN check catches every NaN before
it is written back).  Infinity, however, can appear: finite inputs may
overflow, and the isNaN-only check keeps the resulting Infinity (see the
counterexample). -/
theorem C6_close_pair_skip_and_nan_containment :
    (∀ (bodies : List Body) (cfg : SimulationConfig) (F : Nat → Vec2) (p : Nat × Nat),
      JsNum.ltb (pairDistOv bodies p) (JsNum.fin 1) = true →
      accumStepOv bodies cfg F p = F) ∧
    (∀ (bodies : List Body) (cfg : SimulationConfig) (dt : JsNum),
      (∀ b ∈ bodies, bodyNoNaNb b = true) →
      ∀ b' ∈ updatePhysicsOv bodies cfg dt, bodyNoNaNb b' = true) := by
  constructor
  · intro bodies cfg F p h
    simp [accumStepOv, h]
  · intro bodies cfg dt hnn b' hb'
    unfold updatePhysicsOv at hb'
    by_cases h0 : bodies.length = 0
    · rw [if_pos h0] at hb'
      exact hnn b' hb'
    · rw [if_neg h0] at hb'
      rcases List.mem_map.mp hb' with ⟨i, hi, rfl⟩
      have hilt : i < bodies.length := List.mem_range.mp hi
      exact integrateBodyOv_noNaN cfg dt _ _ (hnn _ (bAt_mem bodies i hilt))

/-- C6 witness: the amended theorem applied to the concrete coincident pair:
the accumulation step skips it, and the step output of the overflow list is
NaN-free (even though it contains an Infinity). -/
theorem C6_close_pair_skip_and_nan_containment_witness :
    accumStepOv [ovFast, demoBody2] ovCfg
      (fun _ => ⟨JsNum.fin 0, JsNum.fin 0⟩) (0, 1) =
      (fun _ => ⟨JsNum.fin 0, JsNum.fin 0⟩) ∧
    ∀ b' ∈ updatePhysicsOv [ovFast, demoBody2] ovCfg (JsNum.fin 1),
      bodyNoNaNb b' = true := by
  constructor
  · exact C6_close_pair_skip_and_nan_containment.1 [ovFast, demoBody2] ovCfg
      (fun _ => ⟨JsNum.fin 0, JsNum.fin 0⟩) (0, 1) ovPair_skip
  · refine C6_close_pair_skip_and_nan_containment.2 [ovFast, demoBody2] ovCfg
      (JsNum.fin 1) ?_
    intro b hb
    rcases List.mem_cons.mp hb with rfl | hb2
    · simp [bodyNoNaNb, vecNoNaNb, ovFast, demoBody]
    · rcases List.mem_cons.mp hb2 with rfl | hb3
      · simp [bodyNoNaNb, vecNoNaNb, demoBody2, demoBody]
      · cases hb3
